import Mathlib

/-!
Shallow embedding of the pdf2skill workflow engine
(`src/workflow_types.py` and `src/workflow_engine.py`) and proofs about it.

Modelling conventions:
- Python JSON-ish values are modelled by `JVal`; Python dicts are
  insertion-ordered association lists (`List (String × α)`), matching
  CPython dict semantics (assignment to an existing key keeps its position,
  a new key is appended at the end).
- Python exceptions escaping a function are modelled by `Except String` or
  by an `Option String` component carrying the exception message.
- Wall-clock time is not modelled: `run_id` is fixed and the
  `elapsed_s` fields are omitted; no claim concerns them.
- Machine floats do not occur on any modelled code path.
-/

namespace Pdf2Skill

/-- JSON-like values, the payload type of node items, parameters and raw
workflow definitions. -/
inductive JVal where
  | null
  | bool (b : Bool)
  | num (n : Int)
  | str (s : String)
  | arr (elems : List JVal)
  | obj (fields : List (String × JVal))

/-- First-match lookup in an insertion-ordered association list
(Python `d[k]` / `d.get(k)` on a dict). -/
def alGet {α : Type} : List (String × α) → String → Option α
  | [], _ => none
  | (k2, v) :: rest, k => if k2 = k then some v else alGet rest k

/-- Python dict assignment `d[k] = v`: replace in place if the key exists,
else append at the end. -/
def alSet {α : Type} : List (String × α) → String → α → List (String × α)
  | [], k, v => [(k, v)]
  | (k2, v2) :: rest, k, v =>
    if k2 = k then (k2, v) :: rest else (k2, v2) :: alSet rest k v

/-- Python `del d[k]`. -/
def alErase {α : Type} : List (String × α) → String → List (String × α)
  | [], _ => []
  | (k2, v2) :: rest, k =>
    if k2 = k then rest else (k2, v2) :: alErase rest k

/-- Modify the value at an existing key in place; `dflt` plays the role of
the defaultdict factory when the key is absent (the new key is appended). -/
def alUpdate {α : Type} : List (String × α) → String → α → (α → α) → List (String × α)
  | [], k, dflt, f => [(k, f dflt)]
  | (k2, v2) :: rest, k, dflt, f =>
    if k2 = k then (k2, f v2) :: rest else (k2, v2) :: alUpdate rest k dflt f

/-- Python `d.get(k)` on a JSON object; `none` on non-objects. -/
def jGet : JVal → String → Option JVal
  | .obj fields, k => alGet fields k
  | _, _ => none

/-- Python truthiness of a JSON-like value. -/
def truthy : JVal → Bool
  | .null => false
  | .bool b => b
  | .num n => decide (n ≠ 0)
  | .str s => decide (s ≠ "")
  | .arr xs => !xs.isEmpty
  | .obj fs => !fs.isEmpty

/-- Python `len(v)`; raises `TypeError` on unsized values. -/
def pyLen : JVal → Except String Nat
  | .str s => .ok s.length
  | .arr xs => .ok xs.length
  | .obj fs => .ok fs.length
  | _ => .error "TypeError: object has no len"

/-- Python `k in v` for a string `k`; raises `TypeError` on
non-container values. -/
def pyContains (container : JVal) (k : String) : Except String Bool :=
  match container with
  | .obj fs => .ok (alGet fs k).isSome
  | .arr xs => .ok (xs.any (fun x => match x with | .str s => decide (s = k) | _ => false))
  | .str s => .ok (decide (1 < (s.splitOn k).length))
  | _ => .error "TypeError: argument of type is not iterable"

/-- Python `v[k]` for a string key `k`: object lookup (`KeyError` when
missing), `TypeError` on every other shape. -/
def pyIndex (container : JVal) (k : String) : Except String JVal :=
  match container with
  | .obj fs =>
    match alGet fs k with
    | some v => .ok v
    | none => .error "KeyError"
  | _ => .error "TypeError: indices must be integers"

-- ═══════ workflow_types.py ═══════

/-- NodeStatus enum. -/
inductive NodeStatus where
  | idle
  | running
  | success
  | error
  | skipped
  | waiting
deriving Repr, DecidableEq

/-- String value of a `NodeStatus` (the `.value` of the Python str-enum). -/
def NodeStatus.value : NodeStatus → String
  | .idle => "idle"
  | .running => "running"
  | .success => "success"
  | .error => "error"
  | .skipped => "skipped"
  | .waiting => "waiting"

/-- ExecutionStatus enum. -/
inductive ExecutionStatus where
  | new
  | running
  | success
  | error
  | cancelled
  | waiting
deriving Repr, DecidableEq

/-- NodeExecutionData: the container passed between nodes. Each item is a
Python dict, i.e. a `JVal.obj` in this model. -/
structure NodeExecutionData where
  items : List JVal

/-- Classmethod `NodeExecutionData.from_single`. -/
def NodeExecutionData.from_single (data : JVal) : NodeExecutionData :=
  ⟨[.obj [("json", data)]]⟩

/-- Classmethod `NodeExecutionData.empty`: the one-item sentinel. -/
def NodeExecutionData.empty : NodeExecutionData :=
  ⟨[.obj [("json", .obj [])]]⟩

/-- Python truthiness of a `NodeExecutionData`, which goes through its
`__len__`. -/
def NodeExecutionData.truthyD (d : NodeExecutionData) : Bool :=
  !d.items.isEmpty

/-- Method `NodeExecutionData.summary`. The `len` calls inside can raise
`TypeError` on unsized field values and the item access assumes a dict
item, exactly as in the source; an escaping exception is the `.error`
case. -/
def NodeExecutionData.summary (d : NodeExecutionData) : Except String String :=
  match d.items with
  | [] => .ok "empty"
  | firstRaw :: _ => do
    let n := d.items.length
    let first ← match firstRaw with
      | .obj fs => Except.ok ((alGet fs "json").getD (.obj []))
      | _ => Except.error "AttributeError: item has no attribute get"
    let hs ← pyContains first "skills"
    if hs then do
      let v ← pyIndex first "skills"
      let k ← pyLen v
      Except.ok (toString k ++ " skills")
    else do
      let hc ← pyContains first "chunks"
      if hc then do
        let v ← pyIndex first "chunks"
        let k ← pyLen v
        Except.ok (toString k ++ " chunks")
      else
        Except.ok (toString n ++ " items")

/-- WorkflowNode: static definition plus runtime fields. `label`, `icon`,
`desc` and `parameters` are stored as the raw JSON values the definition
carried (the dataclass does not validate them). The wall-clock field
`elapsed_s` is not modelled. -/
structure WorkflowNode where
  id : String
  type : String
  label : JVal := .str ""
  icon : JVal := .str ""
  desc : JVal := .str ""
  position : List JVal := [.num 0, .num 0]
  parameters : JVal := .obj []
  disabled : Bool := false
  status : NodeStatus := .idle
  output_data : List (String × List (Option NodeExecutionData)) := []
  error : Option String := none

/-- WorkflowDefinition: the persisted form. Per the dataclass annotations,
`nodes` and `connections` are lists of raw records and `pin_data` maps a
node id to a list of fixed records. -/
structure WorkflowDefinition where
  id : JVal := .str ""
  name : JVal := .str ""
  nodes : List JVal := []
  connections : List JVal := []
  settings : JVal := .obj []
  pin_data : List (String × List JVal) := []

/-- Normalization of one legacy edge inside `WorkflowDefinition.from_json`:
keep only `source` and `target`; a missing key raises (`KeyError`). -/
def normalizeEdge (e : JVal) : Except String JVal :=
  match jGet e "source" with
  | none => .error "KeyError: source"
  | some s =>
    match jGet e "target" with
    | none => .error "KeyError: target"
    | some t => .ok (.obj [("source", s), ("target", t)])

/-- The edge-list comprehension of `from_json`: normalize every edge,
propagating the first raised `KeyError`. -/
def normalizeEdges : List JVal → Except String (List JVal)
  | [] => .ok []
  | e :: rest =>
    match normalizeEdge e with
    | .error msg => .error msg
    | .ok c =>
      match normalizeEdges rest with
      | .error msg => .error msg
      | .ok cs => .ok (c :: cs)

/-- Helper for `from_json`: a field that per the dataclass annotation must
be a JSON array; non-arrays are rejected by the model. -/
def asArr (v : JVal) (what : String) : Except String (List JVal) :=
  match v with
  | .arr xs => .ok xs
  | _ => .error ("model: field is not a list: " ++ what)

/-- Helper for `from_json`: the `pin_data` mapping, typed
`dict[str, list[dict]]` in the source. -/
def asPinData (v : JVal) : Except String (List (String × List JVal)) :=
  match v with
  | .obj fs => fs.mapM (fun p => do
      let xs ← asArr p.2 "pin records"
      Except.ok (p.1, xs))
  | _ => .error "model: pin_data is not a dict"

/-- Classmethod `WorkflowDefinition.from_json` — parses a raw JSON value,
normalizing a legacy `edges` list (used only when `connections` is absent
or falsy) and accepting `pin_data` under either spelling. The
time-derived default id is modelled as the fixed string `wf-0`. -/
def WorkflowDefinition.from_json (data : JVal) : Except String WorkflowDefinition :=
  let conns0 := (jGet data "connections").getD (.arr [])
  let connsE : Except String (List JVal) :=
    match truthy conns0, jGet data "edges" with
    | false, some ev =>
      match asArr ev "edges" with
      | .error e => .error e
      | .ok es => normalizeEdges es
    | _, _ => asArr conns0 "connections"
  match connsE with
  | .error e => .error e
  | .ok conns =>
    match asArr ((jGet data "nodes").getD (.arr [])) "nodes" with
    | .error e => .error e
    | .ok nodes =>
      match asPinData (((jGet data "pin_data").orElse (fun _ => jGet data "pinData")).getD (.obj [])) with
      | .error e => .error e
      | .ok pd =>
        .ok
          { id := (jGet data "id").getD (.str "wf-0")
            name := (jGet data "name").getD (.str "")
            nodes := nodes
            connections := conns
            settings := (jGet data "settings").getD (.obj [])
            pin_data := pd }

/-- ExecuteData: one execution-queue entry. `source` stores the
`previousNode` provenance values. -/
structure ExecuteData where
  node_id : String
  input_data : List (String × List (Option NodeExecutionData)) := []
  source : List (String × List (Option String)) := []

/-- Method `ExecuteData.get_main_input`: the first `main` slot when it is
truthy (a `None` slot and a zero-item container are both falsy), else the
one-item empty sentinel. -/
def ExecuteData.get_main_input (e : ExecuteData) : NodeExecutionData :=
  match alGet e.input_data "main" with
  | some (some d :: _) => if d.items.isEmpty then NodeExecutionData.empty else d
  | _ => NodeExecutionData.empty

/-- One record of `ExecutionContext.run_data` (the `elapsed_s` field is
not modelled). -/
structure RunRecord where
  status : String
  error : Option String
  summary : Option String
deriving Repr, DecidableEq

/-- One `waiting_execution` buffer: the Python dict
with keys main, needed and received. -/
structure WaitingEntry where
  main : List (Option NodeExecutionData)
  needed : Nat
  received : Nat

/-- ExecutionContext: per-run mutable state. -/
structure ExecutionContext where
  run_id : String := ""
  status : ExecutionStatus := .new
  node_execution_stack : List ExecuteData := []
  waiting_execution : List (String × WaitingEntry) := []
  run_data : List (String × List RunRecord) := []
  pin_data : List (String × List JVal) := []

-- ═══════ workflow_engine.py — Workflow (graph builder) ═══════

/-- Parsing of a node record `position` field: `tuple(...values())` on a
dict, `tuple(...)` on a sequence (a string iterates into characters), and
`TypeError` on non-iterables; an absent key defaults to `(0, 0)`. -/
def parsePosition (v : Option JVal) : Except String (List JVal) :=
  match v with
  | none => .ok [.num 0, .num 0]
  | some (.obj fs) => .ok (fs.map Prod.snd)
  | some (.arr xs) => .ok xs
  | some (.str s) => .ok (s.data.map (fun c => .str (String.mk [c])))
  | some _ => .error "TypeError: object is not iterable"

/-- Construction of one `WorkflowNode` from a raw definition record, as in
`Workflow.__init__`. A record that is not a dict or lacks an `id` raises,
as in the source; non-string ids, channel keys or types are rejected by
the model (they are strings in every well-typed definition). -/
def buildNode (nd : JVal) : Except String WorkflowNode :=
  match nd with
  | .obj fs =>
    match alGet fs "id" with
    | none => .error "KeyError: id"
    | some idv =>
      match idv with
      | .str nid =>
        match (alGet fs "type").getD (.str "unknown") with
        | .str ntype =>
          match parsePosition (alGet fs "position") with
          | .error e => .error e
          | .ok pos =>
            .ok
              { id := nid
                type := ntype
                label := (alGet fs "label").getD idv
                icon := (alGet fs "icon").getD (.str "")
                desc := (alGet fs "desc").getD (.str "")
                position := pos
                parameters := (alGet fs "parameters").getD ((alGet fs "config").getD (.obj []))
                disabled := truthy ((alGet fs "disabled").getD (.bool false)) }
        | _ => .error "model: non-string node type"
      | _ => .error "model: non-string node id"
  | _ => .error "TypeError: node record is not a dict"

/-- A connection record with its four optional fields defaulted, as read
in `Workflow.__init__`. -/
structure ParsedConn where
  src : JVal
  dst : JVal
  out_type : String
  out_idx : Int
  in_type : String
  in_idx : Int

/-- Channel keys index string-keyed dicts; the model requires them to be
strings (they always are in well-typed definitions). -/
def parseChannelKey (v : JVal) : Except String String :=
  match v with
  | .str s => .ok s
  | _ => .error "model: non-string channel key"

/-- Connection indices take part in integer `min`; the model requires
them to be integers. -/
def parseIndexVal (v : JVal) : Except String Int :=
  match v with
  | .num n => .ok n
  | _ => .error "model: non-integer connection index"

/-- Field extraction for one connection record. The source reads each
field with `conn.get(key, default)`, so a record that is not a dict
raises `AttributeError` at the first access; on a dict,
`sourceOutputType`/`targetInputType` default to `main` and both indices
default to `0`. -/
def parseConn (conn : JVal) : Except String ParsedConn :=
  match conn with
  | .obj _ =>
    match parseChannelKey ((jGet conn "sourceOutputType").getD (.str "main")),
          parseIndexVal ((jGet conn "sourceOutputIndex").getD (.num 0)),
          parseChannelKey ((jGet conn "targetInputType").getD (.str "main")),
          parseIndexVal ((jGet conn "targetInputIndex").getD (.num 0)) with
    | .ok out_type, .ok out_idx, .ok in_type, .ok in_idx =>
      .ok { src := (jGet conn "source").getD (.str "")
            dst := (jGet conn "target").getD (.str "")
            out_type := out_type, out_idx := out_idx
            in_type := in_type, in_idx := in_idx }
    | .error e, _, _, _ => .error e
    | _, .error e, _, _ => .error e
    | _, _, .error e, _ => .error e
    | _, _, _, .error e => .error e
  | _ => .error "AttributeError: object has no attribute get"

/-- Python `v in nodes` for a dict with string keys, once `v` is known to
hash: only a string can match a key. -/
def memberKey {α : Type} (m : List (String × α)) (v : JVal) : Bool :=
  match v with
  | .str s => (alGet m s).isSome
  | _ => false

/-- Python `v in nodes` for a dict with string keys: hashing a list or a
dict raises `TypeError`, every other value hashes and only a string can
match. -/
def memberHash {α : Type} (m : List (String × α)) (v : JVal) : Except String Bool :=
  match v with
  | .arr _ => .error "TypeError: unhashable type"
  | .obj _ => .error "TypeError: unhashable type"
  | v2 => .ok (memberKey m v2)

/-- The guard `if src and dst and src in self.nodes and dst in self.nodes`
of `Workflow.__init__`, with Python's short-circuit order: a falsy
endpoint never reaches the hash, a truthy unhashable `src` raises
`TypeError`, and `dst` is hashed only when `src` is a member. -/
def connValid {α : Type} (nodes : List (String × α)) (p : ParsedConn) : Except String Bool :=
  if truthy p.src && truthy p.dst then
    match memberHash nodes p.src with
    | .error e => .error e
    | .ok false => .ok false
    | .ok true => memberHash nodes p.dst
  else .ok false

/-- Shape of the two derived connection indices:
`index[node][channel] = [(other_node, index), ...]`. -/
abbrev ConnIndex := List (String × List (String × List (String × Int)))

/-- The defaultdict append `index[key][channel].append(entry)`. -/
def addToIndex (idx : ConnIndex) (key channel : String) (entry : String × Int) : ConnIndex :=
  alUpdate idx key [] (fun chans => alUpdate chans channel [] (fun lst => lst ++ [entry]))

/-- Registration of one raw connection into the pair
(connections_by_source, connections_by_dest); connections failing the
validity guard are dropped, and an exception of the field reads or of the
guard escapes. -/
def registerConn (nodes : List (String × WorkflowNode)) (acc : ConnIndex × ConnIndex)
    (conn : JVal) : Except String (ConnIndex × ConnIndex) :=
  match parseConn conn with
  | .error e => .error e
  | .ok p =>
    match connValid nodes p with
    | .error e => .error e
    | .ok true =>
      match p.src, p.dst with
      | .str s, .str t =>
        .ok (addToIndex acc.1 s p.out_type (t, p.in_idx),
             addToIndex acc.2 t p.in_type (s, p.out_idx))
      | _, _ => .ok acc
    | .ok false => .ok acc

/-- Workflow: the built runtime graph of `Workflow.__init__`. -/
structure Workflow where
  id : JVal
  name : JVal
  settings : JVal
  pin_data : List (String × List JVal)
  nodes : List (String × WorkflowNode)
  connections_by_source : ConnIndex
  connections_by_dest : ConnIndex

/-- Left fold of `self.nodes[node.id] = node` over the raw node records. -/
def buildNodes : List JVal → List (String × WorkflowNode) →
    Except String (List (String × WorkflowNode))
  | [], acc => .ok acc
  | nd :: rest, acc =>
    match buildNode nd with
    | .error e => .error e
    | .ok n => buildNodes rest (alSet acc n.id n)

/-- Left fold of `registerConn` over the raw connection records. -/
def registerAll (nodes : List (String × WorkflowNode)) :
    List JVal → ConnIndex × ConnIndex → Except String (ConnIndex × ConnIndex)
  | [], acc => .ok acc
  | conn :: rest, acc =>
    match registerConn nodes acc conn with
    | .error e => .error e
    | .ok acc2 => registerAll nodes rest acc2

/-- The whole of `Workflow.__init__` (also `WorkflowEngine.build`). -/
def Workflow.build (d : WorkflowDefinition) : Except String Workflow :=
  match buildNodes d.nodes [] with
  | .error e => .error e
  | .ok nodes =>
    match registerAll nodes d.connections ([], []) with
    | .error e => .error e
    | .ok idxs =>
      .ok
        { id := d.id, name := d.name, settings := d.settings, pin_data := d.pin_data
          nodes := nodes
          connections_by_source := idxs.1
          connections_by_dest := idxs.2 }

/-- Method `get_start_nodes`: the nodes that never occur as a key of
`connections_by_dest` (a key exists there for every registered incoming
connection, on whichever channel). -/
def Workflow.get_start_nodes (w : Workflow) : List String :=
  (w.nodes.map Prod.fst).filter (fun nid => (alGet w.connections_by_dest nid).isNone)

/-- Method `get_downstream`. -/
def Workflow.get_downstream (w : Workflow) (node_id output_type : String) :
    List (String × Int) :=
  match alGet w.connections_by_source node_id with
  | none => []
  | some chans => (alGet chans output_type).getD []

/-- Method `get_upstream_count`: the number of connections landing on the
given channel. -/
def Workflow.get_upstream_count (w : Workflow) (node_id input_type : String) : Nat :=
  (match alGet w.connections_by_dest node_id with
   | none => []
   | some chans => (alGet chans input_type).getD []).length

-- ═══════ workflow_engine.py — step registry and engine ═══════

/-- Possible return values of a step function, per the source annotation
`NodeExecutionData | dict[str, list[NodeExecutionData | None]]`:
`.channels` models a dict return carrying a `main` or `error` key (the
output-routing form the normalizer recognizes); `.legacyDict` a plain data
dict without those keys; `.legacyValue` any other value. -/
inductive StepResult where
  | ned (d : NodeExecutionData)
  | channels (m : List (String × List (Option NodeExecutionData)))
  | legacyDict (fields : List (String × JVal))
  | legacyValue (v : JVal)

/-- A registered step: `async (node, context, input_data)`, with a raised
exception modelled as `.error` carrying `str(e)`. -/
def StepFn := WorkflowNode → JVal → NodeExecutionData → Except String StepResult

/-- The step registry `_STEP_REGISTRY` as a lookup function. -/
def Registry := String → Option StepFn

/-- Output normalization of the engine loop (lines 276-284): a bare
`NodeExecutionData` becomes `main[0]`, a dict with `main`/`error` keys is
kept, anything else is wrapped through `from_single`. -/
def normalizeResult : StepResult → List (String × List (Option NodeExecutionData))
  | .ned d => [("main", [some d])]
  | .channels m => m
  | .legacyDict fs => [("main", [some (NodeExecutionData.from_single (.obj fs))])]
  | .legacyValue v => [("main", [some (NodeExecutionData.from_single (.obj [("value", v)]))])]

/-- Observable run history: the six emitted event kinds plus two
instrumentation-only entries, `stepInvoked` (the engine is about to call a
registered step function) and `delivered` (a waiting-buffer slot was
written and the received count incremented). -/
inductive Event where
  | workflowStarted
  | nodeStarted (node_id : String)
  | nodeFinished (node_id : String) (pinned : Bool) (summary : String)
  | nodeError (node_id : String) (error : String)
  | nodeSkipped (node_id : String) (reason : String)
  | workflowFinished (status : String)
  | stepInvoked (node_id : String)
  | delivered (source target channel : String) (slot : Nat)
deriving Repr, DecidableEq

/-- The mutable state a run threads: the workflow (whose nodes carry the
runtime fields), the execution context, and the chronological event
trace. -/
structure EngineState where
  workflow : Workflow
  ctx : ExecutionContext
  trace : List Event

/-- Event emission (`_emit`): callback exceptions are swallowed in the
source, so emission always just extends the trace. -/
def emit (s : EngineState) (e : Event) : EngineState :=
  { s with trace := s.trace ++ [e] }

/-- Append to `node_execution_stack` (a FIFO queue popped at the head). -/
def pushStack (s : EngineState) (ed : ExecuteData) : EngineState :=
  { s with ctx := { s.ctx with node_execution_stack := s.ctx.node_execution_stack ++ [ed] } }

/-- Replace the value at an existing key. -/
def alMap {α : Type} : List (String × α) → String → (α → α) → List (String × α)
  | [], _, _ => []
  | (k2, v) :: rest, k, f =>
    if k2 = k then (k2, f v) :: rest else (k2, v) :: alMap rest k f

/-- In-place mutation of one node object of the workflow. -/
def updateNode (s : EngineState) (nid : String) (f : WorkflowNode → WorkflowNode) : EngineState :=
  { s with workflow := { s.workflow with nodes := alMap s.workflow.nodes nid f } }

/-- Method `_summarize_output`: `main[0].summary()` when the first `main`
output exists, is truthy and is a data container, else `None`. -/
def summarizeOutput (node : WorkflowNode) : Except String (Option String) :=
  match alGet node.output_data "main" with
  | some (some d :: _) =>
    if d.items.isEmpty then .ok none else (d.summary).map (fun x => some x)
  | _ => .ok none

/-- Method `_save_run_data`: ensure the node key exists in `run_data`,
then append one record; the summary computed during record construction
can raise, in which case the key was created but nothing appended. -/
def saveRunData (s : EngineState) (node_id : String) : EngineState × Option String :=
  let rd0 :=
    match alGet s.ctx.run_data node_id with
    | some _ => s.ctx.run_data
    | none => s.ctx.run_data ++ [(node_id, [])]
  match alGet s.workflow.nodes node_id with
  | none => ({ s with ctx := { s.ctx with run_data := rd0 } }, none)
  | some node =>
    match summarizeOutput node with
    | .error e => ({ s with ctx := { s.ctx with run_data := rd0 } }, some e)
    | .ok summ =>
      let rd1 := alUpdate rd0 node_id [] (fun l => l ++ [⟨node.status.value, node.error, summ⟩])
      ({ s with ctx := { s.ctx with run_data := rd1 } }, none)

/-- Tail of one delivery in `_propagate_output`: store the waiting buffer
back, or — when `received >= needed` — push the assembled `ExecuteData`
and delete the buffer. -/
def finishDelivery (s : EngineState) (node_id target_id : String) (w1 : WaitingEntry) :
    EngineState :=
  if w1.needed ≤ w1.received then
    let s2 := pushStack s ⟨target_id, [("main", w1.main)], [("main", [some node_id])]⟩
    { s2 with ctx := { s2.ctx with waiting_execution := alErase s2.ctx.waiting_execution target_id } }
  else
    { s with ctx := { s.ctx with waiting_execution := alSet s.ctx.waiting_execution target_id w1 } }

/-- One `(target_id, target_input_idx)` iteration of `_propagate_output`:
disabled targets are pushed immediately; otherwise the waiting buffer is
lazily created (sized by the `main` upstream count, minimum 1), the first
output item is written at the clamped index when the output list is
non-empty and the clamped index is non-negative, and the join fires once
`received >= needed`. -/
def waitingBufferOf (s : EngineState) (target_id : String) : WaitingEntry :=
  match alGet s.ctx.waiting_execution target_id with
  | some w => w
  | none =>
    let cnt := s.workflow.get_upstream_count target_id "main"
    ⟨List.replicate (max cnt 1) none, cnt, 0⟩

def deliverOne (node_id channel : String) (output_list : List (Option NodeExecutionData))
    (s : EngineState) (tgt : String × Int) : EngineState :=
  match alGet s.workflow.nodes tgt.1 with
  | none => s
  | some target_node =>
    if target_node.disabled then
      pushStack s ⟨tgt.1, [("main", output_list)], [("main", [some node_id])]⟩
    else
      let w0 := waitingBufferOf s tgt.1
      let idx : Int := min tgt.2 ((w0.main.length : Int) - 1)
      if output_list.isEmpty = false ∧ 0 ≤ idx then
        let w1 : WaitingEntry :=
          ⟨w0.main.set idx.toNat (output_list.headD none), w0.needed, w0.received + 1⟩
        finishDelivery (emit s (.delivered node_id tgt.1 channel idx.toNat)) node_id tgt.1 w1
      else
        finishDelivery s node_id tgt.1 w0

/-- One output channel of `_propagate_output`. -/
def propagateChannel (s : EngineState) (node_id channel : String)
    (output_list : List (Option NodeExecutionData)) : EngineState :=
  (s.workflow.get_downstream node_id channel).foldl (deliverOne node_id channel output_list) s

/-- Method `_propagate_output`. -/
def propagateOutput (s : EngineState) (node_id : String)
    (output : List (String × List (Option NodeExecutionData))) : EngineState :=
  output.foldl (fun st p => propagateChannel st node_id p.1 p.2) s

/-- Disabled-node passthrough (loop lines 220-228). -/
def disabledBranch (s : EngineState) (ed : ExecuteData) : EngineState :=
  propagateOutput (emit s (.nodeSkipped ed.node_id "disabled")) ed.node_id
    [("main", [some ed.get_main_input])]

/-- Pinned-node branch (loop lines 230-246): the output is synthesized
from the pinned records and the step function is never consulted. The
summary computation sits outside the try block, so its exception escapes
`execute`. -/
def pinBranch (s : EngineState) (node_id : String) (pin : List JVal) :
    EngineState × Option String :=
  let pinned : NodeExecutionData := ⟨pin⟩
  let s := updateNode s node_id
    (fun n => { n with status := .success, output_data := [("main", [some pinned])] })
  match pinned.summary with
  | .error e => (s, some e)
  | .ok summ =>
    let s := emit s (.nodeFinished node_id true summ)
    let sv := saveRunData s node_id
    match sv.2 with
    | some e => (sv.1, some e)
    | none => (propagateOutput sv.1 node_id [("main", [some pinned])], none)

/-- Unregistered-type branch (loop lines 257-269). -/
def unregisteredBranch (s : EngineState) (node_id ntype : String) : EngineState :=
  let s := updateNode s node_id (fun n => { n with status := .skipped })
  let s := emit s (.nodeSkipped node_id ("未注册类型: " ++ ntype))
  propagateOutput s node_id [("main", [some NodeExecutionData.empty])]

/-- The except-branch of the loop (lines 303-321): mark `error`, record
the message, emit `node:error`, and propagate a single-item
`{error, node}` record on the `error` channel only. -/
def errorOutput (node_id e : String) : List (String × List (Option NodeExecutionData)) :=
  [("error", [some (NodeExecutionData.from_single (.obj [("error", .str e), ("node", .str node_id)]))])]

def errorBranch (s : EngineState) (node_id e : String) : EngineState :=
  propagateOutput
    (emit (updateNode s node_id (fun n => { n with status := .error, error := some e }))
      (.nodeError node_id e))
    node_id (errorOutput node_id e)

/-- Body of the try block (loop lines 271-301), returning the state
reached together with the exception caught by the except-branch, if any.
The exception sources are: the step itself, the `[0]` access on an empty
`main` output list, the summary computation, and `_save_run_data`. -/
def runTryBody (gctx : JVal) (stepFn : StepFn) (node : WorkflowNode) (ed : ExecuteData)
    (s : EngineState) : EngineState × Option String :=
  match stepFn node gctx ed.get_main_input with
  | .error e => (s, some e)
  | .ok result =>
    let output := normalizeResult result
    let s := updateNode s node.id (fun n => { n with status := .success, output_data := output })
    match (alGet output "main").getD [some NodeExecutionData.empty] with
    | [] => (s, some "IndexError: list index out of range")
    | mo :: _ =>
      let summE : Except String String :=
        match mo with
        | some d2 => d2.summary
        | none => .ok "done"
      match summE with
      | .error e => (s, some e)
      | .ok summ =>
        let s := emit s (.nodeFinished node.id false summ)
        let sv := saveRunData s node.id
        match sv.2 with
        | some e => (sv.1, some e)
        | none => (propagateOutput sv.1 node.id output, none)

/-- One iteration of the BFS main loop: pop the queue head and process it.
The second component is an exception escaping `execute` (only the pinned
branch can produce one; everything inside the try block is caught). -/
def execStep (reg : Registry) (gctx : JVal) (s : EngineState) : EngineState × Option String :=
  match s.ctx.node_execution_stack with
  | [] => (s, none)
  | ed :: rest =>
    let s := { s with ctx := { s.ctx with node_execution_stack := rest } }
    let node_id := ed.node_id
    match alGet s.workflow.nodes node_id with
    | none => (s, none)
    | some node =>
      if node.disabled then
        (disabledBranch s ed, none)
      else
        match alGet s.ctx.pin_data node_id with
        | some pin => pinBranch s node_id pin
        | none =>
          let node1 := { node with status := NodeStatus.running }
          let s := updateNode s node_id (fun n => { n with status := .running })
          let s := emit s (.nodeStarted node_id)
          match reg node.type with
          | none => (unregisteredBranch s node_id node.type, none)
          | some stepFn =>
            let s := emit s (.stepInvoked node_id)
            let step1 := runTryBody gctx stepFn node1 ed s
            match step1.2 with
            | none => (step1.1, none)
            | some e => (errorBranch step1.1 node_id e, none)

/-- Queue-empty epilogue (loop lines 323-331). -/
def finishRun (s : EngineState) : EngineState :=
  emit { s with ctx := { s.ctx with status := .success } } (.workflowFinished "success")

/-- Result of a fuel-bounded run: the loop drained the queue, the fuel ran
out first, or a Python exception escaped `execute`. -/
inductive ExecOutcome where
  | finished (s : EngineState)
  | outOfFuel (s : EngineState)
  | raised (s : EngineState) (msg : String)

/-- The state carried by an outcome. -/
def ExecOutcome.state : ExecOutcome → EngineState
  | .finished s => s
  | .outOfFuel s => s
  | .raised s _ => s

/-- The BFS main loop, fuel-bounded (the source loop need not terminate
on cyclic graphs). -/
def execLoop (reg : Registry) (gctx : JVal) : Nat → EngineState → ExecOutcome
  | 0, s => if s.ctx.node_execution_stack.isEmpty then .finished (finishRun s) else .outOfFuel s
  | fuel + 1, s =>
    if s.ctx.node_execution_stack.isEmpty then .finished (finishRun s)
    else
      match execStep reg gctx s with
      | (s1, some e) => .raised s1 e
      | (s1, none) => execLoop reg gctx fuel s1

/-- The `ExecuteData` seeded for one start node. -/
def seedEntry (nid : String) : ExecuteData :=
  ⟨nid, [("main", [some NodeExecutionData.empty])], [("main", [none])]⟩

/-- Seeding of one start node: disabled start nodes are skipped. -/
def seedOne (st : EngineState) (nid : String) : EngineState :=
  match alGet st.workflow.nodes nid with
  | some n => if n.disabled then st else pushStack st (seedEntry nid)
  | none => st

/-- Queue seeding (loop lines 196-206): one entry per start node,
skipping disabled ones. -/
def seedStack (s : EngineState) : EngineState :=
  (s.workflow.get_start_nodes).foldl seedOne s

/-- Method `WorkflowEngine.execute`: fresh context (the time-based run id
is modelled as the fixed `run-0`), `workflow:started`, seeding, main
loop. -/
def execute (reg : Registry) (w : Workflow) (gctx : JVal) (fuel : Nat) : ExecOutcome :=
  let s : EngineState :=
    { workflow := w
      ctx := { run_id := "run-0", status := .running, pin_data := w.pin_data }
      trace := [] }
  let s := emit s .workflowStarted
  let s := seedStack s
  execLoop reg gctx fuel s

-- ═══════ Outcome and state inspectors ═══════

/-- Outcome discriminator. -/
def ExecOutcome.isFinished : ExecOutcome → Bool
  | .finished _ => true
  | _ => false

/-- The escaped exception message, if the run raised. -/
def ExecOutcome.raisedMsg : ExecOutcome → Option String
  | .raised _ m => some m
  | _ => none

/-- Runtime status of a node in a state. -/
def nodeStatusOf (s : EngineState) (nid : String) : Option NodeStatus :=
  (alGet s.workflow.nodes nid).map WorkflowNode.status

/-- Recorded error of a node in a state. -/
def nodeErrorOf (s : EngineState) (nid : String) : Option (Option String) :=
  (alGet s.workflow.nodes nid).map WorkflowNode.error

/-- Received count of a node's waiting buffer, when one exists. -/
def waitingReceived (s : EngineState) (nid : String) : Option Nat :=
  (alGet s.ctx.waiting_execution nid).map WaitingEntry.received

/-- Number of deliveries (on any channel) accepted into the waiting
buffer of node `n` along a trace. -/
def deliveredCountTo (t : List Event) (n : String) : Nat :=
  t.countP (fun e => match e with
    | .delivered _ tgt _ _ => decide (tgt = n)
    | _ => false)

/-- Number of deliveries to node `n` that came over a `main`-channel
connection. -/
def mainDeliveredTo (t : List Event) (n : String) : Nat :=
  t.countP (fun e => match e with
    | .delivered _ tgt ch _ => decide (tgt = n) && decide (ch = "main")
    | _ => false)

/-- The prefix of a trace before the first invocation of node `n`. -/
def beforeInvoke (t : List Event) (n : String) : List Event :=
  t.takeWhile (fun e => !(decide (e = Event.stepInvoked n)))

-- ═══════ Concrete scenarios used by witnesses and counterexamples ═══════

/-- A step that returns a one-item tagged record. -/
def okStep (tag : String) : StepFn :=
  fun _ _ _ => .ok (.ned (NodeExecutionData.from_single (.obj [("tag", .str tag)])))

/-- A step that always raises `msg`. -/
def raiseStep (msg : String) : StepFn :=
  fun _ _ _ => .error msg

/-- A registry with one succeeding type and one raising type. -/
def testRegistry : Registry := fun t =>
  if t = "ok" then some (okStep t)
  else if t = "boom" then some (raiseStep "boom")
  else none

/-- Shorthand for a raw node record. -/
def nodeRec (nid ntype : String) : JVal :=
  .obj [("id", .str nid), ("type", .str ntype)]

/-- Shorthand for a raw single-channel connection record. -/
def connRec (src dst : String) : JVal :=
  .obj [("source", .str src), ("target", .str dst)]

/-- Build a definition, falling back to the empty workflow on failure (the
scenarios below all build successfully). -/
def buildOrEmpty (d : WorkflowDefinition) : Workflow :=
  match Workflow.build d with
  | .ok w => w
  | .error _ => ⟨.str "", .str "", .obj [], [], [], [], []⟩

/-- Join scenario with an extra error-channel edge into the join node:
`a → c` (main, slot 0), `b → c` (main, slot 1), `x → c` (error channel),
`s → b` (to delay b). Node `x` raises. -/
def defC1 : WorkflowDefinition :=
  { nodes := [nodeRec "a" "ok", nodeRec "x" "boom", nodeRec "s" "ok",
              nodeRec "b" "ok", nodeRec "c" "ok"]
    connections :=
      [ .obj [("source", .str "a"), ("target", .str "c"), ("targetInputIndex", .num 0)]
      , .obj [("source", .str "b"), ("target", .str "c"), ("targetInputIndex", .num 1)]
      , .obj [("source", .str "x"), ("target", .str "c"), ("sourceOutputType", .str "error"),
              ("targetInputType", .str "error"), ("targetInputIndex", .num 0)]
      , connRec "s" "b" ] }

def wfC1 : Workflow := buildOrEmpty defC1

def runC1 : ExecOutcome := execute testRegistry wfC1 (.obj []) 10

/-- Plain two-slot join: `a → d` (slot 0), `b → d` (slot 1). -/
def defJoin : WorkflowDefinition :=
  { nodes := [nodeRec "a" "ok", nodeRec "b" "ok", nodeRec "d" "ok"]
    connections :=
      [ .obj [("source", .str "a"), ("target", .str "d"), ("targetInputIndex", .num 0)]
      , .obj [("source", .str "b"), ("target", .str "d"), ("targetInputIndex", .num 1)] ] }

def wfJoin : Workflow := buildOrEmpty defJoin

def runJoin : ExecOutcome := execute testRegistry wfJoin (.obj []) 10

/-- Two nodes joined only by an error-channel connection. -/
def defC2 : WorkflowDefinition :=
  { nodes := [nodeRec "a" "ok", nodeRec "b" "ok"]
    connections :=
      [ .obj [("source", .str "a"), ("target", .str "b"), ("targetInputType", .str "error")] ] }

def wfC2 : Workflow := buildOrEmpty defC2

/-- A pinned node whose first pinned record has an unsized `skills`
field, and whose registered step would raise. -/
def defC4 : WorkflowDefinition :=
  { nodes := [nodeRec "b" "boom"]
    pin_data := [("b", [.obj [("json", .obj [("skills", .num 5)])]])] }

def wfC4 : Workflow := buildOrEmpty defC4

def runC4 : ExecOutcome := execute testRegistry wfC4 (.obj []) 10

/-- Pinned node with a healthy pin feeding a downstream node. -/
def defPin : WorkflowDefinition :=
  { nodes := [nodeRec "b" "boom", nodeRec "c" "ok"]
    connections := [connRec "b" "c"]
    pin_data := [("b", [.obj [("json", .obj [("v", .num 42)])]])] }

def wfPin : Workflow := buildOrEmpty defPin

def runPin : ExecOutcome := execute testRegistry wfPin (.obj []) 10

/-- An unregistered-type node feeding a join slot declared at index -1. -/
def defC6 : WorkflowDefinition :=
  { nodes := [nodeRec "u" "nope", nodeRec "j" "ok"]
    connections :=
      [ .obj [("source", .str "u"), ("target", .str "j"), ("targetInputIndex", .num (-1))] ] }

def wfC6 : Workflow := buildOrEmpty defC6

def runC6 : ExecOutcome := execute testRegistry wfC6 (.obj []) 10

/-- A node definition record without an `id`. -/
def defC7 : WorkflowDefinition :=
  { nodes := [.obj []] }

/-- A connection record that is not a dict: the field reads raise. -/
def defC7num : WorkflowDefinition :=
  { nodes := [nodeRec "a" "ok"], connections := [.num 5] }

/-- A connection whose endpoints are truthy lists: hashing them for the
`src in self.nodes` test raises. -/
def defC7list : WorkflowDefinition :=
  { nodes := [nodeRec "a" "ok"]
    connections := [.obj [("source", .arr [.num 1]), ("target", .arr [.num 2])]] }

/-- A pinned node with an empty pinned-record list feeding `b`. -/
def defC9 : WorkflowDefinition :=
  { nodes := [nodeRec "a" "ok", nodeRec "b" "ok"]
    connections := [connRec "a" "b"]
    pin_data := [("a", [])] }

def wfC9 : Workflow := buildOrEmpty defC9

/-- Run stopped by the fuel bound right after the pinned node fired, so
the queue entry assembled for `b` is observable. -/
def runC9 : ExecOutcome := execute testRegistry wfC9 (.obj []) 1

/-- The first `main` input slot of the head queue entry, as an item
count. -/
def headSlotItemCount (s : EngineState) : Option (Option Nat) :=
  match s.ctx.node_execution_stack with
  | ed :: _ =>
    match alGet ed.input_data "main" with
    | some (o :: _) => some (o.map (fun d => d.items.length))
    | _ => none
  | [] => none

-- ═══════ Specification-side definitions ═══════

/-- Number of incoming `main`-channel connections of a node: the size the
join buffer is allocated with. -/
def neededOf (w : Workflow) (n : String) : Nat :=
  w.get_upstream_count n "main"

/-- Whether a node of the workflow is disabled (false for unknown ids). -/
def disabledOf (w : Workflow) (n : String) : Bool :=
  match alGet w.nodes n with
  | some nd => nd.disabled
  | none => false

/-- Join gating along a trace: every step invocation of a node is preceded
by at least as many accepted deliveries to it as it has incoming `main`
connections. -/
def gatedTrace (needed : String → Nat) (t : List Event) : Prop :=
  ∀ i n, t[i]? = some (Event.stepInvoked n) → needed n ≤ deliveredCountTo (t.take i) n

/-- Entries registered for a `(node, channel)` in a derived connection
index (a missing key on either level yields the empty list). -/
def indexEntries (idx : ConnIndex) (k ch : String) : List (String × Int) :=
  (alGet ((alGet idx k).getD []) ch).getD []

/-- Run invariant tying a live state to the initial workflow `w0`: the
connection indices, disabled flags and pin map never change during a
run; every queued entry is for a disabled node or one whose
accepted-delivery count has reached its `main`-connection count; every
waiting buffer stores the correct `needed` and never more `received`
than the deliveries accepted so far; the trace is join-gated; and no
pinned node is ever step-invoked. -/
structure EngineInv (w0 : Workflow) (s : EngineState) : Prop where
  connSrc : s.workflow.connections_by_source = w0.connections_by_source
  connDst : s.workflow.connections_by_dest = w0.connections_by_dest
  disabledEq : ∀ n, disabledOf s.workflow n = disabledOf w0 n
  pinEq : s.ctx.pin_data = w0.pin_data
  stackOk : ∀ ed ∈ s.ctx.node_execution_stack,
    disabledOf w0 ed.node_id = true ∨
      neededOf w0 ed.node_id ≤ deliveredCountTo s.trace ed.node_id
  waitingOk : ∀ p ∈ s.ctx.waiting_execution,
    p.2.needed = neededOf w0 p.1 ∧ p.2.received ≤ deliveredCountTo s.trace p.1
  gated : gatedTrace (neededOf w0) s.trace
  noPin : ∀ n, Event.stepInvoked n ∈ s.trace → alGet w0.pin_data n = none

/-- A definition every raw record of which is well-typed: each node
record parses and each connection record parses (string ids and channel
keys, integer indices). -/
def isStrVal : JVal → Bool
  | .str _ => true
  | _ => false

/-- A connection record the graph loop handles without raising: a dict
(whose channel keys and indices are well-typed) whose `source` and
`target` values are strings — an absent endpoint defaults to the string
`""`, while a non-string endpoint is either silently dropped (falsy, or
truthy yet never matching a key) or raises `TypeError` when truthy and
unhashable. -/
def connTyped (c : JVal) : Bool :=
  match parseConn c with
  | .ok p => isStrVal p.src && isStrVal p.dst
  | .error _ => false

def wellFormedDef (d : WorkflowDefinition) : Bool :=
  d.nodes.all (fun nd => (buildNode nd).isOk) &&
  d.connections.all connTyped

/-- Linear workflow with a disabled middle node whose step would raise. -/
def defDis : WorkflowDefinition :=
  { nodes := [nodeRec "a" "ok",
              .obj [("id", .str "b"), ("type", .str "boom"), ("disabled", .bool true)],
              nodeRec "c" "ok"]
    connections := [connRec "a" "b", connRec "b" "c"] }

def wfDis : Workflow := buildOrEmpty defDis

/-- A queue entry for the disabled node `b` of `wfDis`, carrying one
non-empty main input. -/
def edC5 : ExecuteData :=
  ⟨"b", [("main", [some (NodeExecutionData.from_single (.obj [("k", .num 7)]))])], []⟩

def sC5 : EngineState :=
  ⟨wfDis, { run_id := "run-0", status := .running, node_execution_stack := [edC5],
            pin_data := [] }, []⟩

/-- A queue entry and state for the raising node of a one-node workflow. -/
def defBoom : WorkflowDefinition := { nodes := [nodeRec "x" "boom"] }

def wfBoom : Workflow := buildOrEmpty defBoom

def sC3 : EngineState :=
  ⟨wfBoom, { run_id := "run-0", status := .running, node_execution_stack := [seedEntry "x"],
             pin_data := [] }, []⟩

/-- A state whose head entry names the unregistered-type node of `wfC6`. -/
def sC6 : EngineState :=
  ⟨wfC6, { run_id := "run-0", status := .running, node_execution_stack := [seedEntry "u"],
           pin_data := [] }, []⟩

/-- Raw JSON carrying a legacy `edges` list and no `connections`. -/
def dataC8 : JVal :=
  .obj [("nodes", .arr [nodeRec "a" "ok", nodeRec "b" "ok"]),
        ("edges", .arr [connRec "a" "b"])]

/-- The parse of `dataC8` (total here; the fallback is never reached). -/
def defC8 : WorkflowDefinition :=
  match WorkflowDefinition.from_json dataC8 with
  | .ok d => d
  | .error _ => {}

def wfC8 : Workflow := buildOrEmpty defC8

/-- Starved join: `p → j` (slot 0) and `q → j` (slot 1), where `q` raises;
its `error`-channel output has no registered target, so `j` never collects
a second delivery. -/
def defStarve : WorkflowDefinition :=
  { nodes := [nodeRec "p" "ok", nodeRec "q" "boom", nodeRec "j" "ok"]
    connections :=
      [ .obj [("source", .str "p"), ("target", .str "j"), ("targetInputIndex", .num 0)]
      , .obj [("source", .str "q"), ("target", .str "j"), ("targetInputIndex", .num 1)] ] }

def wfStarve : Workflow := buildOrEmpty defStarve

def runStarve : ExecOutcome := execute testRegistry wfStarve (.obj []) 10

/-- The pinned records of `wfPin`, and a state whose head queue entry
names the pinned node, used to exercise the pinned branch directly. -/
def pinB : List JVal := [.obj [("json", .obj [("v", .num 42)])]]

def sPin : EngineState :=
  ⟨wfPin, { run_id := "run-0", status := .running, node_execution_stack := [seedEntry "b"],
            pin_data := wfPin.pin_data }, []⟩

-- ═══════ Association-list lemmas ═══════

theorem mem_of_alGet {α : Type} {m : List (String × α)} {k : String} {v : α}
    (h : alGet m k = some v) : (k, v) ∈ m := by
  induction m with
  | nil => simp [alGet] at h
  | cons p rest ih =>
    obtain ⟨k2, v2⟩ := p
    by_cases hk : k2 = k
    · subst hk
      simp [alGet] at h
      simp [h]
    · simp [alGet, hk] at h
      simp [ih h]

theorem mem_alSet {α : Type} {m : List (String × α)} {k : String} {v : α} {p : String × α}
    (h : p ∈ alSet m k v) : p ∈ m ∨ p = (k, v) := by
  induction m with
  | nil => simp [alSet] at h; simp [h]
  | cons q rest ih =>
    obtain ⟨k2, v2⟩ := q
    by_cases hk : k2 = k
    · subst hk
      simp [alSet] at h
      rcases h with h | h
      · exact Or.inr (by simp [h])
      · exact Or.inl (by simp [h])
    · simp [alSet, hk] at h
      rcases h with h | h
      · exact Or.inl (by simp [h])
      · rcases ih h with h2 | h2
        · exact Or.inl (by simp [h2])
        · exact Or.inr h2

theorem mem_alErase {α : Type} {m : List (String × α)} {k : String} {p : String × α}
    (h : p ∈ alErase m k) : p ∈ m := by
  induction m with
  | nil => simp [alErase] at h
  | cons q rest ih =>
    obtain ⟨k2, v2⟩ := q
    by_cases hk : k2 = k
    · simp [alErase, hk] at h
      simp [h]
    · simp [alErase, hk] at h
      rcases h with h | h
      · simp [h]
      · simp [ih h]

theorem alGet_alMap {α : Type} (m : List (String × α)) (k : String) (f : α → α) (n : String) :
    alGet (alMap m k f) n = if n = k then (alGet m n).map f else alGet m n := by
  induction m with
  | nil => simp [alMap, alGet]
  | cons q rest ih =>
    obtain ⟨k2, v2⟩ := q
    by_cases hk : k2 = k
    · subst hk
      by_cases hn : k2 = n
      · subst hn
        simp [alMap, alGet]
      · have hn2 : ¬ n = k2 := fun h => hn h.symm
        simp [alMap, alGet, hn, hn2]
    · by_cases hn : k2 = n
      · subst hn
        simp [alMap, alGet, hk]
      · simp [alMap, alGet, hk, hn, ih]

theorem foldl_preserve {α β : Type} (P : β → Prop) (f : β → α → β) (l : List α) (s : β)
    (hs : P s) (hf : ∀ x ∈ l, ∀ b, P b → P (f b x)) : P (l.foldl f s) := by
  induction l generalizing s with
  | nil => exact hs
  | cons a l ih =>
    exact ih (f s a) (hf a (by simp) s hs) (fun x hx b hb => hf x (by simp [hx]) b hb)

-- ═══════ Claim C10 ═══════

/-- C10: building a node record without a `label` field takes the id as
the label, and a record without `parameters` falls back to `config`
before defaulting to the empty map. -/
theorem C10_node_defaults (fs : List (String × JVal)) (s : String) (n : WorkflowNode)
    (hid : alGet fs "id" = some (.str s))
    (hlabel : alGet fs "label" = none)
    (hok : buildNode (.obj fs) = .ok n) :
    n.label = .str s ∧
    (alGet fs "parameters" = none → n.parameters = (alGet fs "config").getD (.obj [])) := by
  simp only [buildNode, hid] at hok
  rcases htype : (alGet fs "type").getD (.str "unknown") with _ | _ | _ | ty | _ | _ <;>
      rw [htype] at hok <;> try simp at hok
  rcases hpos : parsePosition (alGet fs "position") with e | pos <;> rw [hpos] at hok
  · simp at hok
  · simp only [Except.ok.injEq] at hok
    subst hok
    exact ⟨by simp [hlabel], fun hp => by simp [hp]⟩

theorem C10_witness :
    alGet [("id", JVal.str "n1"), ("config", JVal.obj [("k", JVal.num 1)])] "id"
        = some (.str "n1") ∧
    (buildNode (.obj [("id", JVal.str "n1"), ("config", JVal.obj [("k", JVal.num 1)])])).isOk
        = true ∧
    ∀ n, buildNode (.obj [("id", JVal.str "n1"), ("config", JVal.obj [("k", JVal.num 1)])])
        = .ok n → n.label = .str "n1" ∧ n.parameters = .obj [("k", JVal.num 1)] := by
  refine ⟨rfl, rfl, fun n hn => ?_⟩
  have h := C10_node_defaults
    [("id", JVal.str "n1"), ("config", JVal.obj [("k", JVal.num 1)])] "n1" n rfl rfl hn
  exact ⟨h.1, h.2 rfl⟩

-- ═══════ Claim C7: counterexample ═══════

/-- C7 counterexample: building does not succeed for every definition —
a node record without an `id` raises `KeyError`, a connection record
that is not a dict raises `AttributeError` at the `conn.get` field
reads, and a connection whose endpoints are truthy lists raises
`TypeError` when they are hashed for the `src in self.nodes` test. -/
theorem C7_counterexample :
    Workflow.build defC7 = .error "KeyError: id" ∧
    Workflow.build defC7num = .error "AttributeError: object has no attribute get" ∧
    Workflow.build defC7list = .error "TypeError: unhashable type" := by
  refine ⟨rfl, rfl, rfl⟩

-- ═══════ Claim C2: counterexample ═══════

/-- C2 counterexample: in `wfC2` node `b` has zero incoming `main`
connections (its only incoming connection is on the `error` channel), yet
`get_start_nodes` does not return it. -/
theorem C2_counterexample :
    wfC2.get_upstream_count "b" "main" = 0 ∧
    "b" ∈ wfC2.nodes.map Prod.fst ∧
    "b" ∉ wfC2.get_start_nodes ∧
    wfC2.get_start_nodes = ["a"] := by decide

theorem alGet_isSome_of_mem_keys {α : Type} {m : List (String × α)} {k : String}
    (h : k ∈ m.map Prod.fst) : (alGet m k).isSome := by
  induction m with
  | nil => simp at h
  | cons p rest ih =>
    obtain ⟨k2, v⟩ := p
    by_cases hk : k2 = k
    · simp [alGet, hk]
    · simp at h
      rcases h with h | h
      · exact absurd h.symm hk
      · simp only [alGet, if_neg hk]
        exact ih (by simpa using h)

theorem seedFold_spec (l : List String) (s : EngineState)
    (hkeys : ∀ nid ∈ l, (alGet s.workflow.nodes nid).isSome) :
    (l.foldl seedOne s).workflow = s.workflow ∧
    (l.foldl seedOne s).ctx.node_execution_stack =
      s.ctx.node_execution_stack ++
        (l.filter (fun nid => disabledOf s.workflow nid = false)).map seedEntry := by
  induction l generalizing s with
  | nil => simp
  | cons nid l ih =>
    rcases hn : alGet s.workflow.nodes nid with _ | n
    · have hmem := hkeys nid (by simp)
      rw [hn] at hmem
      simp at hmem
    · by_cases hd : n.disabled = true
      · have hstep : seedOne s nid = s := by
          unfold seedOne
          rw [hn]
          simp [hd]
        have hdis : disabledOf s.workflow nid = true := by
          unfold disabledOf
          rw [hn]
          exact hd
        rw [List.foldl_cons, hstep]
        obtain ⟨hw, hs⟩ := ih s (fun x hx => hkeys x (by simp [hx]))
        refine ⟨hw, ?_⟩
        rw [hs, List.filter_cons]
        simp [hdis]
      · have hstep : seedOne s nid = pushStack s (seedEntry nid) := by
          unfold seedOne
          rw [hn]
          simp [hd]
        have hdis : disabledOf s.workflow nid = false := by
          unfold disabledOf
          rw [hn]
          simpa using hd
        rw [List.foldl_cons, hstep]
        obtain ⟨hw, hs⟩ := ih (pushStack s (seedEntry nid))
          (fun x hx => hkeys x (by simp [hx]))
        refine ⟨hw, ?_⟩
        rw [hs, List.filter_cons]
        simp [hdis, pushStack, List.append_assoc]

/-- C2 (amended): `get_start_nodes` returns exactly the nodes with no
incoming connection on any channel (an `error`/`ai_tool` incoming
connection also disqualifies, because it registers the node as a
`connections_by_dest` key), and the seeded queue holds exactly the
returned nodes minus the disabled ones, in order. -/
theorem C2_start_nodes (w : Workflow) (nid : String) :
    (nid ∈ w.get_start_nodes ↔
      nid ∈ w.nodes.map Prod.fst ∧ alGet w.connections_by_dest nid = none) ∧
    (∀ ctx0 : ExecutionContext, ctx0.node_execution_stack = [] →
      (seedStack ⟨w, ctx0, [Event.workflowStarted]⟩).ctx.node_execution_stack =
        (w.get_start_nodes.filter (fun x => disabledOf w x = false)).map seedEntry) := by
  constructor
  · unfold Workflow.get_start_nodes
    rw [List.mem_filter]
    simp [Option.isNone_iff_eq_none]
  · intro ctx0 hctx
    have hkeys : ∀ x ∈ (⟨w, ctx0, [Event.workflowStarted]⟩ : EngineState).workflow.get_start_nodes,
        (alGet (⟨w, ctx0, [Event.workflowStarted]⟩ : EngineState).workflow.nodes x).isSome := by
      intro x hx
      refine alGet_isSome_of_mem_keys ?_
      unfold Workflow.get_start_nodes at hx
      exact (List.mem_filter.mp hx).1
    have h := (seedFold_spec w.get_start_nodes ⟨w, ctx0, [Event.workflowStarted]⟩ hkeys).2
    unfold seedStack
    rw [h, hctx]
    simp

theorem C2_witness :
    "a" ∈ wfC2.get_start_nodes ∧
    (seedStack ⟨wfC2, { run_id := "run-0", status := .running, pin_data := wfC2.pin_data },
        [Event.workflowStarted]⟩).ctx.node_execution_stack = [seedEntry "a"] := by
  constructor
  · exact (C2_start_nodes wfC2 "a").1.mpr ⟨by decide, by decide⟩
  · rw [(C2_start_nodes wfC2 "a").2
      { run_id := "run-0", status := .running, pin_data := wfC2.pin_data } rfl]
    rfl

-- ═══════ Connection-index lemmas (claims C7, C8) ═══════

theorem alGet_alUpdate {α : Type} (m : List (String × α)) (k : String) (dflt : α) (f : α → α)
    (n : String) :
    alGet (alUpdate m k dflt f) n =
      if n = k then some (f ((alGet m k).getD dflt)) else alGet m n := by
  induction m with
  | nil =>
    by_cases hn : n = k
    · simp [alUpdate, alGet, hn]
    · have hn2 : ¬ k = n := fun h => hn h.symm
      simp [alUpdate, alGet, hn, hn2]
  | cons q rest ih =>
    obtain ⟨k2, v2⟩ := q
    by_cases hk : k2 = k
    · subst hk
      by_cases hn : k2 = n
      · subst hn
        simp [alUpdate, alGet]
      · have hn2 : ¬ n = k2 := fun h => hn h.symm
        simp [alUpdate, alGet, hn, hn2]
    · by_cases hn : k2 = n
      · subst hn
        simp [alUpdate, alGet, hk, fun h => hk (h : k2 = k)]
      · simp only [alUpdate, if_neg hk]
        simp only [alGet, if_neg hn]
        rw [ih]
        by_cases hnk : n = k
        · simp [hnk, alGet, if_neg hk]
        · simp [hnk]

theorem indexEntries_addToIndex (idx : ConnIndex) (k ch : String) (e : String × Int)
    (k2 ch2 : String) :
    indexEntries (addToIndex idx k ch e) k2 ch2 =
      if k2 = k ∧ ch2 = ch then indexEntries idx k2 ch2 ++ [e] else indexEntries idx k2 ch2 := by
  unfold indexEntries addToIndex
  simp only [alGet_alUpdate]
  by_cases hk : k2 = k
  · subst hk
    simp only [if_pos rfl, Option.getD_some]
    by_cases hch : ch2 = ch
    · subst hch
      simp [alGet_alUpdate]
    · simp [alGet_alUpdate, hch]
  · have hcond : ¬ (k2 = k ∧ ch2 = ch) := fun h => hk h.1
    rw [if_neg hk, if_neg hcond]

theorem registerConn_shape (nodes : List (String × WorkflowNode)) (acc : ConnIndex × ConnIndex)
    (conn : JVal) (p : ParsedConn) (hp : parseConn conn = .ok p) :
    (connValid nodes p = .ok true →
      ∀ s t, p.src = .str s → p.dst = .str t →
        registerConn nodes acc conn =
          .ok (addToIndex acc.1 s p.out_type (t, p.in_idx),
               addToIndex acc.2 t p.in_type (s, p.out_idx))) ∧
    (connValid nodes p = .ok false → registerConn nodes acc conn = .ok acc) ∧
    (∀ e, connValid nodes p = .error e → registerConn nodes acc conn = .error e) := by
  refine ⟨?_, ?_, ?_⟩
  · intro hv s t hs ht
    unfold registerConn
    rw [hp]
    simp [hv, hs, ht]
  · intro hv
    unfold registerConn
    rw [hp]
    simp [hv]
  · intro e hv
    unfold registerConn
    rw [hp]
    simp [hv]

/-- A successful membership test names a string that hashes and matches
(or not) a key. -/
theorem memberHash_ok_true {α : Type} {m : List (String × α)} {v : JVal}
    (h : memberHash m v = .ok true) : ∃ s, v = .str s ∧ (alGet m s).isSome = true := by
  cases v <;> simp [memberHash, memberKey] at h ⊢
  exact h

/-- The two string endpoints exist whenever the validity guard holds. -/
theorem connValid_str {α : Type} {nodes : List (String × α)} {p : ParsedConn}
    (hv : connValid nodes p = .ok true) :
    ∃ s t, p.src = .str s ∧ p.dst = .str t ∧
      (alGet nodes s).isSome ∧ (alGet nodes t).isSome ∧ s ≠ "" ∧ t ≠ "" := by
  unfold connValid at hv
  by_cases hc : (truthy p.src && truthy p.dst) = true
  · rw [if_pos hc] at hv
    rcases hm : memberHash nodes p.src with e | b <;> rw [hm] at hv
    · exact absurd hv (by simp)
    · cases b with
      | false => exact absurd hv (by simp)
      | true =>
        simp only [] at hv
        obtain ⟨s, hs, hms⟩ := memberHash_ok_true hm
        obtain ⟨t, ht, hmt⟩ := memberHash_ok_true hv
        obtain ⟨hc1, hc2⟩ := Bool.and_eq_true _ _ |>.mp hc
        rw [hs] at hc1
        rw [ht] at hc2
        simp [truthy] at hc1 hc2
        exact ⟨s, t, hs, ht, hms, hmt, hc1, hc2⟩
  · rw [if_neg hc] at hv
    exact absurd hv (by simp)

/-- On string endpoints the validity guard never raises. -/
theorem connValid_str_isOk {α : Type} (nodes : List (String × α)) (p : ParsedConn)
    {s t : String} (hs : p.src = .str s) (ht : p.dst = .str t) :
    ∃ b, connValid nodes p = .ok b := by
  unfold connValid
  rw [hs, ht]
  by_cases hc : (truthy (JVal.str s) && truthy (JVal.str t)) = true
  · rw [if_pos hc]
    cases hm : memberKey nodes (JVal.str s) with
    | false => exact ⟨false, by simp [memberHash, hm]⟩
    | true => exact ⟨memberKey nodes (JVal.str t), by simp [memberHash, hm]⟩
  · rw [if_neg hc]
    exact ⟨false, rfl⟩

theorem registerAll_mono (nodes : List (String × WorkflowNode)) (conns : List JVal)
    (acc accR : ConnIndex × ConnIndex) (hreg : registerAll nodes conns acc = .ok accR)
    (k ch : String) (entry : String × Int) :
    (entry ∈ indexEntries acc.1 k ch → entry ∈ indexEntries accR.1 k ch) ∧
    (entry ∈ indexEntries acc.2 k ch → entry ∈ indexEntries accR.2 k ch) := by
  induction conns generalizing acc with
  | nil =>
    have h : (Except.ok acc : Except String (ConnIndex × ConnIndex)) = .ok accR := hreg
    injection h with h
    subst h
    exact ⟨id, id⟩
  | cons conn rest ih =>
    unfold registerAll at hreg
    rcases hrc : registerConn nodes acc conn with e | acc2 <;> rw [hrc] at hreg
    · have hreg2 : (Except.error e : Except String (ConnIndex × ConnIndex)) = .ok accR := hreg
      simp at hreg2
    · have hreg2 : registerAll nodes rest acc2 = .ok accR := hreg
      have step : (entry ∈ indexEntries acc.1 k ch → entry ∈ indexEntries acc2.1 k ch) ∧
          (entry ∈ indexEntries acc.2 k ch → entry ∈ indexEntries acc2.2 k ch) := by
        rcases hp : parseConn conn with e2 | p
        · have herr : registerConn nodes acc conn = .error e2 := by
            unfold registerConn
            rw [hp]
          rw [herr] at hrc
          simp at hrc
        · rcases hv : connValid nodes p with e3 | b
          · rw [(registerConn_shape nodes acc conn p hp).2.2 e3 hv] at hrc
            simp at hrc
          · cases b with
            | true =>
              obtain ⟨s, t, hs, ht, _, _, _, _⟩ := connValid_str hv
              have hshape := (registerConn_shape nodes acc conn p hp).1 hv s t hs ht
              rw [hshape] at hrc
              injection hrc with h
              subst h
              constructor <;> intro hm <;>
                · simp only [indexEntries_addToIndex]
                  split
                  · simp [hm]
                  · exact hm
            | false =>
              have hshape := (registerConn_shape nodes acc conn p hp).2.1 hv
              rw [hshape] at hrc
              injection hrc with h
              subst h
              exact ⟨id, id⟩
      exact ⟨fun hm => (ih acc2 hreg2).1 (step.1 hm), fun hm => (ih acc2 hreg2).2 (step.2 hm)⟩

theorem registerAll_registers (nodes : List (String × WorkflowNode)) (conns : List JVal)
    (acc accR : ConnIndex × ConnIndex) (hreg : registerAll nodes conns acc = .ok accR)
    (conn : JVal) (hconn : conn ∈ conns) (p : ParsedConn) (hp : parseConn conn = .ok p)
    (hv : connValid nodes p = .ok true) (s t : String) (hs : p.src = .str s)
    (ht : p.dst = .str t) :
    (t, p.in_idx) ∈ indexEntries accR.1 s p.out_type ∧
    (s, p.out_idx) ∈ indexEntries accR.2 t p.in_type := by
  induction conns generalizing acc with
  | nil => simp at hconn
  | cons c rest ih =>
    unfold registerAll at hreg
    rcases hrc : registerConn nodes acc c with e | acc2 <;> rw [hrc] at hreg
    · have h2 : (Except.error e : Except String (ConnIndex × ConnIndex)) = .ok accR := hreg
      simp at h2
    · have hreg2 : registerAll nodes rest acc2 = .ok accR := hreg
      rcases List.mem_cons.mp hconn with hc | hc
      · subst hc
        have hshape := (registerConn_shape nodes acc conn p hp).1 hv s t hs ht
        rw [hshape] at hrc
        injection hrc with h
        subst h
        have hm1 : (t, p.in_idx) ∈
            indexEntries (addToIndex acc.1 s p.out_type (t, p.in_idx)) s p.out_type := by
          rw [indexEntries_addToIndex]
          simp
        have hm2 : (s, p.out_idx) ∈
            indexEntries (addToIndex acc.2 t p.in_type (s, p.out_idx)) t p.in_type := by
          rw [indexEntries_addToIndex]
          simp
        exact ⟨(registerAll_mono nodes rest _ accR hreg2 s p.out_type (t, p.in_idx)).1 hm1,
               (registerAll_mono nodes rest _ accR hreg2 t p.in_type (s, p.out_idx)).2 hm2⟩
      · exact ih acc2 hreg2 hc

theorem registerAll_complete (nodes : List (String × WorkflowNode)) (conns : List JVal)
    (acc accR : ConnIndex × ConnIndex) (hreg : registerAll nodes conns acc = .ok accR)
    (k ch : String) (entry : String × Int) :
    (entry ∈ indexEntries accR.1 k ch →
      entry ∈ indexEntries acc.1 k ch ∨
        ∃ conn ∈ conns, ∃ p, parseConn conn = .ok p ∧ connValid nodes p = .ok true ∧
          p.src = .str k ∧ p.out_type = ch ∧ ∃ t, p.dst = .str t ∧ entry = (t, p.in_idx)) ∧
    (entry ∈ indexEntries accR.2 k ch →
      entry ∈ indexEntries acc.2 k ch ∨
        ∃ conn ∈ conns, ∃ p, parseConn conn = .ok p ∧ connValid nodes p = .ok true ∧
          p.dst = .str k ∧ p.in_type = ch ∧ ∃ s, p.src = .str s ∧ entry = (s, p.out_idx)) := by
  induction conns generalizing acc with
  | nil =>
    have h : (Except.ok acc : Except String (ConnIndex × ConnIndex)) = .ok accR := hreg
    injection h with h
    subst h
    exact ⟨fun hm => Or.inl hm, fun hm => Or.inl hm⟩
  | cons c rest ih =>
    unfold registerAll at hreg
    rcases hrc : registerConn nodes acc c with e | acc2 <;> rw [hrc] at hreg
    · have h2 : (Except.error e : Except String (ConnIndex × ConnIndex)) = .ok accR := hreg
      simp at h2
    · have hreg2 : registerAll nodes rest acc2 = .ok accR := hreg
      have ihh := ih acc2 hreg2
      rcases hp : parseConn c with e2 | p
      · have herr : registerConn nodes acc c = .error e2 := by
          unfold registerConn
          rw [hp]
        rw [herr] at hrc
        simp at hrc
      · rcases hv : connValid nodes p with e3 | b
        · rw [(registerConn_shape nodes acc c p hp).2.2 e3 hv] at hrc
          simp at hrc
        · cases b with
          | true =>
            obtain ⟨s, t, hs, ht, _, _, _, _⟩ := connValid_str hv
            have hshape := (registerConn_shape nodes acc c p hp).1 hv s t hs ht
            rw [hshape] at hrc
            injection hrc with h
            subst h
            constructor
            · intro hm
              rcases ihh.1 hm with hm2 | ⟨conn, hcm, hrest⟩
              · rw [indexEntries_addToIndex] at hm2
                by_cases hcond : k = s ∧ ch = p.out_type
                · rw [if_pos hcond] at hm2
                  rcases List.mem_append.mp hm2 with hm3 | hm3
                  · exact Or.inl hm3
                  · simp only [List.mem_singleton] at hm3
                    refine Or.inr ⟨c, by simp, p, hp, hv, ?_, hcond.2.symm, t, ht, hm3⟩
                    rw [hs, hcond.1]
                · rw [if_neg hcond] at hm2
                  exact Or.inl hm2
              · exact Or.inr ⟨conn, by simp [hcm], hrest⟩
            · intro hm
              rcases ihh.2 hm with hm2 | ⟨conn, hcm, hrest⟩
              · rw [indexEntries_addToIndex] at hm2
                by_cases hcond : k = t ∧ ch = p.in_type
                · rw [if_pos hcond] at hm2
                  rcases List.mem_append.mp hm2 with hm3 | hm3
                  · exact Or.inl hm3
                  · simp only [List.mem_singleton] at hm3
                    refine Or.inr ⟨c, by simp, p, hp, hv, ?_, hcond.2.symm, s, hs, hm3⟩
                    rw [ht, hcond.1]
                · rw [if_neg hcond] at hm2
                  exact Or.inl hm2
              · exact Or.inr ⟨conn, by simp [hcm], hrest⟩
          | false =>
            have hshape := (registerConn_shape nodes acc c p hp).2.1 hv
            rw [hshape] at hrc
            injection hrc with h
            subst h
            constructor
            · intro hm
              rcases ihh.1 hm with hm2 | ⟨conn, hcm, hrest⟩
              · exact Or.inl hm2
              · exact Or.inr ⟨conn, by simp [hcm], hrest⟩
            · intro hm
              rcases ihh.2 hm with hm2 | ⟨conn, hcm, hrest⟩
              · exact Or.inl hm2
              · exact Or.inr ⟨conn, by simp [hcm], hrest⟩

theorem buildNodes_isOk (l : List JVal) (acc : List (String × WorkflowNode))
    (h : ∀ nd ∈ l, (buildNode nd).isOk) : ∃ ns, buildNodes l acc = .ok ns := by
  induction l generalizing acc with
  | nil => exact ⟨acc, rfl⟩
  | cons nd rest ih =>
    rcases hb : buildNode nd with e | n
    · have hh := h nd (by simp)
      rw [hb] at hh
      simp [Except.isOk, Except.toBool] at hh
    · unfold buildNodes
      rw [hb]
      exact ih (alSet acc n.id n) (fun x hx => h x (by simp [hx]))

theorem isStrVal_eq {v : JVal} (h : isStrVal v = true) : ∃ s, v = .str s := by
  cases v <;> simp [isStrVal] at h ⊢

theorem registerAll_isOk (nodes : List (String × WorkflowNode)) (conns : List JVal)
    (acc : ConnIndex × ConnIndex) (h : ∀ c ∈ conns, connTyped c = true) :
    ∃ idxs, registerAll nodes conns acc = .ok idxs := by
  induction conns generalizing acc with
  | nil => exact ⟨acc, rfl⟩
  | cons c rest ih =>
    have hh := h c (by simp)
    unfold connTyped at hh
    rcases hp : parseConn c with e | p <;> rw [hp] at hh
    · simp at hh
    · simp only [Bool.and_eq_true] at hh
      obtain ⟨s, hs⟩ := isStrVal_eq hh.1
      obtain ⟨t, ht⟩ := isStrVal_eq hh.2
      obtain ⟨b, hb⟩ := connValid_str_isOk nodes p hs ht
      have hrc : ∃ acc2, registerConn nodes acc c = .ok acc2 := by
        cases b with
        | true => exact ⟨_, (registerConn_shape nodes acc c p hp).1 hb s t hs ht⟩
        | false => exact ⟨acc, (registerConn_shape nodes acc c p hp).2.1 hb⟩
      obtain ⟨acc2, hrc2⟩ := hrc
      unfold registerAll
      rw [hrc2]
      exact ih acc2 (fun x hx => h x (by simp [hx]))

theorem build_inversion (d : WorkflowDefinition) (w : Workflow)
    (h : Workflow.build d = .ok w) :
    buildNodes d.nodes [] = .ok w.nodes ∧
    registerAll w.nodes d.connections ([], []) =
      .ok (w.connections_by_source, w.connections_by_dest) := by
  unfold Workflow.build at h
  rcases hb : buildNodes d.nodes [] with e | nodes <;> rw [hb] at h
  · have h2 : (Except.error e : Except String Workflow) = .ok w := h
    simp at h2
  · have h3 : (match registerAll nodes d.connections ([], []) with
        | .error e => (.error e : Except String Workflow)
        | .ok idxs =>
          .ok { id := d.id, name := d.name, settings := d.settings, pin_data := d.pin_data,
                nodes := nodes, connections_by_source := idxs.1,
                connections_by_dest := idxs.2 }) = .ok w := h
    rcases hr : registerAll nodes d.connections ([], []) with e | idxs <;> rw [hr] at h3
    · simp at h3
    · have h4 : (Except.ok
          { id := d.id, name := d.name, settings := d.settings, pin_data := d.pin_data,
            nodes := nodes, connections_by_source := idxs.1,
            connections_by_dest := idxs.2 } : Except String Workflow) = .ok w := h3
      injection h4 with h4
      subst h4
      exact ⟨rfl, hr⟩

/-- C7 (amended): building is not raise-free for arbitrary definitions —
a node record without an `id` raises `KeyError`, a non-dict connection
record raises `AttributeError` at the field reads, and a truthy
unhashable endpoint raises `TypeError` at the membership test (see the
counterexample). For every definition whose node records build and whose
connection records are dicts with string endpoints, building never
fails; every connection whose endpoints both name existing nodes is
registered in both derived indices, and every entry of either index
stems from such a connection — so a connection with a dangling endpoint
is silently omitted from both. -/
theorem C7_build_drops_dangling (d : WorkflowDefinition) (hwf : wellFormedDef d = true) :
    ∃ w, Workflow.build d = .ok w ∧
      (∀ conn ∈ d.connections, ∀ p, parseConn conn = .ok p → connValid w.nodes p = .ok true →
        ∀ s t, p.src = .str s → p.dst = .str t →
          (t, p.in_idx) ∈ indexEntries w.connections_by_source s p.out_type ∧
          (s, p.out_idx) ∈ indexEntries w.connections_by_dest t p.in_type) ∧
      (∀ k ch entry, entry ∈ indexEntries w.connections_by_source k ch →
        ∃ conn ∈ d.connections, ∃ p, parseConn conn = .ok p ∧
          connValid w.nodes p = .ok true ∧
          p.src = .str k ∧ p.out_type = ch ∧ ∃ t, p.dst = .str t ∧ entry = (t, p.in_idx)) ∧
      (∀ k ch entry, entry ∈ indexEntries w.connections_by_dest k ch →
        ∃ conn ∈ d.connections, ∃ p, parseConn conn = .ok p ∧
          connValid w.nodes p = .ok true ∧
          p.dst = .str k ∧ p.in_type = ch ∧ ∃ s, p.src = .str s ∧ entry = (s, p.out_idx)) := by
  unfold wellFormedDef at hwf
  simp only [Bool.and_eq_true, List.all_eq_true] at hwf
  obtain ⟨hn, hc⟩ := hwf
  obtain ⟨nodes, hb⟩ := buildNodes_isOk d.nodes [] (fun nd hnd => hn nd hnd)
  obtain ⟨idxs, hr⟩ := registerAll_isOk nodes d.connections ([], []) (fun c hcm => hc c hcm)
  refine ⟨⟨d.id, d.name, d.settings, d.pin_data, nodes, idxs.1, idxs.2⟩, ?_, ?_, ?_, ?_⟩
  · unfold Workflow.build
    rw [hb]
    show (match registerAll nodes d.connections ([], []) with
      | .error e => (.error e : Except String Workflow)
      | .ok idxs =>
        .ok { id := d.id, name := d.name, settings := d.settings, pin_data := d.pin_data,
              nodes := nodes, connections_by_source := idxs.1,
              connections_by_dest := idxs.2 }) =
      .ok ⟨d.id, d.name, d.settings, d.pin_data, nodes, idxs.1, idxs.2⟩
    rw [hr]
  · intro conn hcm p hp hv s t hs ht
    exact registerAll_registers nodes d.connections ([], []) idxs hr conn hcm p hp hv s t hs ht
  · intro k ch entry hm
    rcases (registerAll_complete nodes d.connections ([], []) idxs hr k ch entry).1 hm
      with h0 | hex
    · simp [indexEntries, alGet] at h0
    · exact hex
  · intro k ch entry hm
    rcases (registerAll_complete nodes d.connections ([], []) idxs hr k ch entry).2 hm
      with h0 | hex
    · simp [indexEntries, alGet] at h0
    · exact hex

theorem C7_witness :
    wellFormedDef defJoin = true ∧ (Workflow.build defJoin).isOk = true := by
  refine ⟨by decide, ?_⟩
  obtain ⟨w, hw, _⟩ := C7_build_drops_dangling defJoin (by decide)
  rw [hw]
  rfl

/-- C8: a legacy `edges` list (used only when `connections` is absent or
falsy) is normalized to connection records carrying only `source` and
`target`; on a dict connection record, each of the four channel/index
fields that is absent defaults independently — the channels to `main`
and the indices to `0` — whatever subset of the fields is present; and
the graph builder registers a source/target-only record under the `main`
channel with index 0 in both indices. -/
theorem C8_legacy_and_defaults (data : JVal) (d : WorkflowDefinition)
    (hj : WorkflowDefinition.from_json data = .ok d)
    (hconn : truthy ((jGet data "connections").getD (.arr [])) = false)
    (es : List JVal) (hedges : jGet data "edges" = some (.arr es)) :
    normalizeEdges es = .ok d.connections ∧
    (∀ e sv tv, jGet e "source" = some sv → jGet e "target" = some tv →
      normalizeEdge e = .ok (.obj [("source", sv), ("target", tv)])) ∧
    (∀ fs : List (String × JVal), ∀ p, parseConn (.obj fs) = .ok p →
      (jGet (.obj fs) "sourceOutputType" = none → p.out_type = "main") ∧
      (jGet (.obj fs) "sourceOutputIndex" = none → p.out_idx = 0) ∧
      (jGet (.obj fs) "targetInputType" = none → p.in_type = "main") ∧
      (jGet (.obj fs) "targetInputIndex" = none → p.in_idx = 0)) ∧
    (∀ w s t, Workflow.build d = .ok w →
      (JVal.obj [("source", .str s), ("target", .str t)]) ∈ d.connections →
      s ≠ "" → t ≠ "" → (alGet w.nodes s).isSome → (alGet w.nodes t).isSome →
      (t, 0) ∈ indexEntries w.connections_by_source s "main" ∧
      (s, 0) ∈ indexEntries w.connections_by_dest t "main") := by
  refine ⟨?_, ?_, ?_, ?_⟩
  · unfold WorkflowDefinition.from_json at hj
    have hae : asArr (.arr es) "edges" = .ok es := rfl
    simp only [hconn, hedges, hae] at hj
    rcases hm : normalizeEdges es with e | conns <;> rw [hm] at hj
    · simp at hj
    · rcases ha : asArr ((jGet data "nodes").getD (.arr [])) "nodes" with e | nodes <;>
        rw [ha] at hj
      · simp at hj
      · rcases hpd : asPinData (((jGet data "pin_data").orElse
            (fun _ => jGet data "pinData")).getD (.obj [])) with e | pd <;> rw [hpd] at hj
        · simp at hj
        · have hj4 : (Except.ok
              { id := (jGet data "id").getD (.str "wf-0"),
                name := (jGet data "name").getD (.str ""),
                nodes := nodes, connections := conns,
                settings := (jGet data "settings").getD (.obj []),
                pin_data := pd } : Except String WorkflowDefinition) = .ok d := hj
          injection hj4 with hj4
          rw [← hj4]
  · intro e sv tv hsv htv
    unfold normalizeEdge
    rw [hsv, htv]
  · intro fs p hp
    unfold parseConn at hp
    rcases h1 : parseChannelKey ((jGet (.obj fs) "sourceOutputType").getD (.str "main"))
      with e | ot <;> rw [h1] at hp
    · simp at hp
    rcases h2 : parseIndexVal ((jGet (.obj fs) "sourceOutputIndex").getD (.num 0))
      with e | oi <;> rw [h2] at hp
    · simp at hp
    rcases h3 : parseChannelKey ((jGet (.obj fs) "targetInputType").getD (.str "main"))
      with e | it <;> rw [h3] at hp
    · simp at hp
    rcases h4 : parseIndexVal ((jGet (.obj fs) "targetInputIndex").getD (.num 0))
      with e | ii <;> rw [h4] at hp
    · simp at hp
    have hp2 : (Except.ok
        { src := (jGet (.obj fs) "source").getD (.str "")
          dst := (jGet (.obj fs) "target").getD (.str "")
          out_type := ot, out_idx := oi, in_type := it, in_idx := ii } :
          Except String ParsedConn) = .ok p := hp
    injection hp2 with hp3
    subst hp3
    refine ⟨fun habs => ?_, fun habs => ?_, fun habs => ?_, fun habs => ?_⟩
    · rw [habs] at h1
      simp [parseChannelKey] at h1
      exact h1.symm
    · rw [habs] at h2
      simp [parseIndexVal] at h2
      exact h2.symm
    · rw [habs] at h3
      simp [parseChannelKey] at h3
      exact h3.symm
    · rw [habs] at h4
      simp [parseIndexVal] at h4
      exact h4.symm
  · intro w s t hw hmem hs ht hms hmt
    have hinv := build_inversion d w hw
    have hp : parseConn (.obj [("source", .str s), ("target", .str t)]) =
        .ok ⟨.str s, .str t, "main", 0, "main", 0⟩ := by rfl
    have hv : connValid w.nodes
        (⟨.str s, .str t, "main", 0, "main", 0⟩ : ParsedConn) = .ok true := by
      simp [connValid, truthy, memberHash, memberKey, hs, ht, hms, hmt]
    exact registerAll_registers w.nodes d.connections ([], [])
      (w.connections_by_source, w.connections_by_dest) hinv.2
      (.obj [("source", .str s), ("target", .str t)]) hmem
      ⟨.str s, .str t, "main", 0, "main", 0⟩ hp hv s t rfl rfl

theorem C8_witness :
    (WorkflowDefinition.from_json dataC8 = .ok defC8) ∧
    defC8.connections = [connRec "a" "b"] ∧
    (∃ p, parseConn (.obj [("source", .str "b"), ("target", .str "c"),
        ("targetInputIndex", .num 1)]) = .ok p ∧
      p.out_type = "main" ∧ p.out_idx = 0 ∧ p.in_type = "main" ∧ p.in_idx = 1) ∧
    ("b", (0 : Int)) ∈ indexEntries wfC8.connections_by_source "a" "main" ∧
    ("a", (0 : Int)) ∈ indexEntries wfC8.connections_by_dest "b" "main" := by
  have h := C8_legacy_and_defaults dataC8 defC8 (by rfl) (by rfl)
    [connRec "a" "b"] (by rfl)
  have hfields := h.2.2.1 [("source", .str "b"), ("target", .str "c"),
      ("targetInputIndex", .num 1)] ⟨.str "b", .str "c", "main", 0, "main", 1⟩ rfl
  have hb : Workflow.build defC8 = .ok wfC8 := by rfl
  have hmem : (JVal.obj [("source", .str "a"), ("target", .str "b")]) ∈ defC8.connections := by
    have hconns : defC8.connections = [JVal.obj [("source", .str "a"), ("target", .str "b")]] :=
      rfl
    rw [hconns]
    exact List.mem_singleton.mpr rfl
  refine ⟨by rfl, by rfl, ?_, ?_⟩
  · exact ⟨⟨.str "b", .str "c", "main", 0, "main", 1⟩, rfl,
      hfields.1 rfl, hfields.2.1 rfl, hfields.2.2.1 rfl, rfl⟩
  · exact h.2.2.2 wfC8 "a" "b" hb hmem (by decide) (by decide) (by decide) (by decide)

-- ═══════ Engine invariance lemmas ═══════

theorem finishDelivery_workflow (s : EngineState) (a b : String) (w1 : WaitingEntry) :
    (finishDelivery s a b w1).workflow = s.workflow := by
  unfold finishDelivery
  split <;> rfl

theorem finishDelivery_trace (s : EngineState) (a b : String) (w1 : WaitingEntry) :
    (finishDelivery s a b w1).trace = s.trace := by
  unfold finishDelivery
  split <;> rfl

theorem deliverOne_workflow (node_id channel : String) (ol : List (Option NodeExecutionData))
    (s : EngineState) (tgt : String × Int) :
    (deliverOne node_id channel ol s tgt).workflow = s.workflow := by
  unfold deliverOne
  rcases alGet s.workflow.nodes tgt.1 with _ | tn
  · rfl
  · by_cases hd : tn.disabled = true
    · simp [hd, pushStack]
    · simp only [hd, Bool.false_eq_true, if_false]
      split
      · rw [finishDelivery_workflow]
        rfl
      · rw [finishDelivery_workflow]

theorem deliverOne_trace_extends (node_id channel : String)
    (ol : List (Option NodeExecutionData)) (s : EngineState) (tgt : String × Int) :
    ∃ u, (deliverOne node_id channel ol s tgt).trace = s.trace ++ u := by
  unfold deliverOne
  rcases alGet s.workflow.nodes tgt.1 with _ | tn
  · exact ⟨[], by simp⟩
  · by_cases hd : tn.disabled = true
    · exact ⟨[], by simp [hd, pushStack]⟩
    · simp only [hd, Bool.false_eq_true, if_false]
      split
      · rw [finishDelivery_trace]
        exact ⟨_, rfl⟩
      · rw [finishDelivery_trace]
        exact ⟨[], by simp⟩

theorem foldl_workflow_eq (l : List (String × Int)) (f : EngineState → String × Int → EngineState)
    (hf : ∀ b x, (f b x).workflow = b.workflow) (s : EngineState) :
    (l.foldl f s).workflow = s.workflow := by
  induction l generalizing s with
  | nil => rfl
  | cons x l ih =>
    rw [List.foldl_cons, ih (f s x), hf]

theorem propagateChannel_workflow (s : EngineState) (node_id channel : String)
    (ol : List (Option NodeExecutionData)) :
    (propagateChannel s node_id channel ol).workflow = s.workflow := by
  unfold propagateChannel
  exact foldl_workflow_eq _ _ (fun b x => deliverOne_workflow node_id channel ol b x) s

theorem foldl_workflow_eq2 (l : List (String × List (Option NodeExecutionData)))
    (f : EngineState → String × List (Option NodeExecutionData) → EngineState)
    (hf : ∀ b x, (f b x).workflow = b.workflow) (s : EngineState) :
    (l.foldl f s).workflow = s.workflow := by
  induction l generalizing s with
  | nil => rfl
  | cons x l ih =>
    rw [List.foldl_cons, ih (f s x), hf]

theorem propagateOutput_workflow (s : EngineState) (node_id : String)
    (output : List (String × List (Option NodeExecutionData))) :
    (propagateOutput s node_id output).workflow = s.workflow := by
  unfold propagateOutput
  exact foldl_workflow_eq2 _ _ (fun b x => propagateChannel_workflow b node_id x.1 x.2) s

theorem foldl_trace_extends {α : Type} (l : List α) (f : EngineState → α → EngineState)
    (hf : ∀ b x, ∃ u, (f b x).trace = b.trace ++ u) (s : EngineState) :
    ∃ u, (l.foldl f s).trace = s.trace ++ u := by
  induction l generalizing s with
  | nil => exact ⟨[], by simp⟩
  | cons x l ih =>
    rw [List.foldl_cons]
    obtain ⟨u1, hu1⟩ := hf s x
    obtain ⟨u2, hu2⟩ := ih (f s x)
    exact ⟨u1 ++ u2, by rw [hu2, hu1, List.append_assoc]⟩

theorem propagateChannel_trace_extends (s : EngineState) (node_id channel : String)
    (ol : List (Option NodeExecutionData)) :
    ∃ u, (propagateChannel s node_id channel ol).trace = s.trace ++ u := by
  unfold propagateChannel
  exact foldl_trace_extends _ _ (fun b x => deliverOne_trace_extends node_id channel ol b x) s

theorem propagateOutput_trace_extends (s : EngineState) (node_id : String)
    (output : List (String × List (Option NodeExecutionData))) :
    ∃ u, (propagateOutput s node_id output).trace = s.trace ++ u := by
  unfold propagateOutput
  exact foldl_trace_extends _ _
    (fun b (x : String × List (Option NodeExecutionData)) =>
      propagateChannel_trace_extends b node_id x.1 x.2) s

theorem mem_trace_propagateOutput (s : EngineState) (node_id : String)
    (output : List (String × List (Option NodeExecutionData))) (e : Event)
    (he : e ∈ s.trace) : e ∈ (propagateOutput s node_id output).trace := by
  obtain ⟨u, hu⟩ := propagateOutput_trace_extends s node_id output
  rw [hu]
  exact List.mem_append.mpr (Or.inl he)

theorem nodeStatusOf_propagateOutput (s : EngineState) (node_id : String)
    (output : List (String × List (Option NodeExecutionData))) (n : String) :
    nodeStatusOf (propagateOutput s node_id output) n = nodeStatusOf s n := by
  unfold nodeStatusOf
  rw [propagateOutput_workflow]

theorem nodeErrorOf_propagateOutput (s : EngineState) (node_id : String)
    (output : List (String × List (Option NodeExecutionData))) (n : String) :
    nodeErrorOf (propagateOutput s node_id output) n = nodeErrorOf s n := by
  unfold nodeErrorOf
  rw [propagateOutput_workflow]

theorem nodeStatusOf_updateNode (s : EngineState) (nid : String) (f : WorkflowNode → WorkflowNode)
    (n : String) :
    nodeStatusOf (updateNode s nid f) n =
      if n = nid then (alGet s.workflow.nodes n).map (fun nd => (f nd).status)
      else nodeStatusOf s n := by
  unfold nodeStatusOf updateNode
  simp only [alGet_alMap]
  split
  · simp [Option.map_map]
    rfl
  · rfl

theorem nodeErrorOf_updateNode (s : EngineState) (nid : String) (f : WorkflowNode → WorkflowNode)
    (n : String) :
    nodeErrorOf (updateNode s nid f) n =
      if n = nid then (alGet s.workflow.nodes n).map (fun nd => (f nd).error)
      else nodeErrorOf s n := by
  unfold nodeErrorOf updateNode
  simp only [alGet_alMap]
  split
  · simp [Option.map_map]
    rfl
  · rfl

/-- A completed loop always stamps the context `SUCCESS`. -/
theorem execLoop_finished_success (reg : Registry) (gctx : JVal) (fuel : Nat)
    (s s1 : EngineState) (h : execLoop reg gctx fuel s = .finished s1) :
    s1.ctx.status = ExecutionStatus.success := by
  induction fuel generalizing s with
  | zero =>
    unfold execLoop at h
    split at h
    · injection h with h
      subst h
      rfl
    · exact absurd h (by simp)
  | succ n ih =>
    unfold execLoop at h
    split at h
    · injection h with h
      subst h
      rfl
    · rcases hs : execStep reg gctx s with ⟨s2, opt⟩
      rw [hs] at h
      rcases opt with _ | e
      · exact ih s2 h
      · exact absurd h (by simp)

-- ═══════ Claim C5 ═══════

/-- C5: popping a disabled node emits `node:skipped` and hands the node's
main input datum, unmodified, to propagation as the node's sole `main`
output; the datum read is exactly the first input slot whenever that slot
holds a non-empty container. -/
theorem C5_disabled_passthrough (reg : Registry) (gctx : JVal) (s : EngineState)
    (ed : ExecuteData) (rest : List ExecuteData) (node : WorkflowNode)
    (hstack : s.ctx.node_execution_stack = ed :: rest)
    (hnode : alGet s.workflow.nodes ed.node_id = some node)
    (hdis : node.disabled = true) :
    execStep reg gctx s =
      (propagateOutput
        (emit { s with ctx := { s.ctx with node_execution_stack := rest } }
          (.nodeSkipped ed.node_id "disabled"))
        ed.node_id [("main", [some ed.get_main_input])], none) ∧
    (∀ d tl, alGet ed.input_data "main" = some (some d :: tl) → d.items ≠ [] →
      ed.get_main_input = d) := by
  constructor
  · unfold execStep
    rw [hstack]
    simp [hnode, hdis, disabledBranch]
  · intro d tl hslot hne
    unfold ExecuteData.get_main_input
    rw [hslot]
    simp [hne]

theorem C5_witness :
    execStep testRegistry (.obj []) sC5 =
      (propagateOutput
        (emit { sC5 with ctx := { sC5.ctx with node_execution_stack := [] } }
          (.nodeSkipped "b" "disabled"))
        "b" [("main", [some (ExecuteData.get_main_input edC5)])], none) ∧
    ExecuteData.get_main_input edC5 =
      NodeExecutionData.from_single (.obj [("k", .num 7)]) := by
  constructor
  · exact (C5_disabled_passthrough testRegistry (.obj []) sC5 edC5 [] _ rfl rfl rfl).1
  · exact (C5_disabled_passthrough testRegistry (.obj []) sC5 edC5 [] _ rfl rfl rfl).2
      (NodeExecutionData.from_single (.obj [("k", .num 7)])) [] rfl
      (by simp [NodeExecutionData.from_single])

-- ═══════ Claim C3 ═══════

/-- C3: when a registered step raises, the engine marks the node `error`
with the message captured, emits `node:error`, and propagates exactly one
single-item record carrying the error message and node id on the `error`
channel only; the loop iteration itself raises nothing, and any completed
run ends with context status `SUCCESS`. -/
theorem C3_step_raises (reg : Registry) (gctx : JVal) (s : EngineState)
    (ed : ExecuteData) (rest : List ExecuteData) (node : WorkflowNode) (stepFn1 : StepFn)
    (e : String)
    (hstack : s.ctx.node_execution_stack = ed :: rest)
    (hnode : alGet s.workflow.nodes ed.node_id = some node)
    (hdis : node.disabled = false)
    (hpin : alGet s.ctx.pin_data ed.node_id = none)
    (hreg : reg node.type = some stepFn1)
    (hstep : stepFn1 { node with status := NodeStatus.running } gctx ed.get_main_input
      = .error e) :
    execStep reg gctx s =
      (propagateOutput
        (emit
          (updateNode
            (emit (emit (updateNode { s with ctx := { s.ctx with node_execution_stack := rest } }
              ed.node_id (fun n => { n with status := .running }))
              (.nodeStarted ed.node_id)) (.stepInvoked ed.node_id))
            ed.node_id (fun n => { n with status := .error, error := some e }))
          (.nodeError ed.node_id e))
        ed.node_id (errorOutput ed.node_id e), none) ∧
    errorOutput ed.node_id e =
      [("error",
        [some ⟨[.obj [("json", .obj [("error", .str e), ("node", .str ed.node_id)])]]⟩])] ∧
    (execStep reg gctx s).2 = none ∧
    (∀ fuel s1, execLoop reg gctx fuel s = .finished s1 →
      s1.ctx.status = ExecutionStatus.success) := by
  have hmain : execStep reg gctx s =
      (propagateOutput
        (emit
          (updateNode
            (emit (emit (updateNode { s with ctx := { s.ctx with node_execution_stack := rest } }
              ed.node_id (fun n => { n with status := .running }))
              (.nodeStarted ed.node_id)) (.stepInvoked ed.node_id))
            ed.node_id (fun n => { n with status := .error, error := some e }))
          (.nodeError ed.node_id e))
        ed.node_id (errorOutput ed.node_id e), none) := by
    simp only [hdis] at hstep
    unfold execStep
    rw [hstack]
    simp [hnode, hdis, hpin, hreg, runTryBody, hstep, errorBranch]
  refine ⟨hmain, rfl, by rw [hmain], ?_⟩
  intro fuel s1 h
  exact execLoop_finished_success reg gctx fuel s s1 h

theorem C3_witness :
    (execStep testRegistry (.obj []) sC3).2 = none ∧
    nodeStatusOf (execStep testRegistry (.obj []) sC3).1 "x" = some NodeStatus.error ∧
    nodeErrorOf (execStep testRegistry (.obj []) sC3).1 "x" = some (some "boom") ∧
    Event.nodeError "x" "boom" ∈ (execStep testRegistry (.obj []) sC3).1.trace ∧
    errorOutput "x" "boom" =
      [("error",
        [some ⟨[.obj [("json", .obj [("error", .str "boom"), ("node", .str "x")])]]⟩])] ∧
    (∀ fuel s1, execLoop testRegistry (.obj []) fuel sC3 = .finished s1 →
      s1.ctx.status = ExecutionStatus.success) := by
  have h := C3_step_raises testRegistry (.obj []) sC3 (seedEntry "x") [] _
    (raiseStep "boom") "boom" rfl rfl rfl rfl rfl rfl
  exact ⟨h.2.2.1, by decide, by decide, by decide, h.2.1, h.2.2.2⟩

-- ═══════ Claim C6 ═══════

/-- C6 (amended): an unregistered type never raises: the node ends
`skipped` after `node:started` and `node:skipped`, and exactly one empty
one-item container is handed to propagation on `main`; a delivery is then
accepted by every existing, non-disabled `main` downstream target whose
clamped input index is non-negative, while a negative declared index
writes nothing and increments nothing, so such a join never completes. -/
theorem C6_unregistered_type (reg : Registry) (gctx : JVal) (s : EngineState)
    (ed : ExecuteData) (rest : List ExecuteData) (node : WorkflowNode)
    (hstack : s.ctx.node_execution_stack = ed :: rest)
    (hnode : alGet s.workflow.nodes ed.node_id = some node)
    (hdis : node.disabled = false)
    (hpin : alGet s.ctx.pin_data ed.node_id = none)
    (hreg : reg node.type = none) :
    execStep reg gctx s =
      (propagateOutput
        (emit
          (updateNode
            (emit (updateNode { s with ctx := { s.ctx with node_execution_stack := rest } }
              ed.node_id (fun n => { n with status := .running }))
              (.nodeStarted ed.node_id))
            ed.node_id (fun n => { n with status := .skipped }))
          (.nodeSkipped ed.node_id ("未注册类型: " ++ node.type)))
        ed.node_id [("main", [some NodeExecutionData.empty])], none) ∧
    NodeExecutionData.empty.items.length = 1 ∧
    (∀ (node_id channel : String) (ol : List (Option NodeExecutionData)) (s2 : EngineState)
        (tgt : String × Int) (tn : WorkflowNode),
      alGet s2.workflow.nodes tgt.1 = some tn → tn.disabled = false → ol.isEmpty = false →
      (0 ≤ min tgt.2 (((waitingBufferOf s2 tgt.1).main.length : Int) - 1) →
        Event.delivered node_id tgt.1 channel
            (min tgt.2 (((waitingBufferOf s2 tgt.1).main.length : Int) - 1)).toNat
          ∈ (deliverOne node_id channel ol s2 tgt).trace) ∧
      (min tgt.2 (((waitingBufferOf s2 tgt.1).main.length : Int) - 1) < 0 →
        (deliverOne node_id channel ol s2 tgt).trace = s2.trace)) := by
  refine ⟨?_, rfl, ?_⟩
  · unfold execStep
    rw [hstack]
    simp [hnode, hdis, hpin, hreg, unregisteredBranch]
  · intro node_id channel ol s2 tgt tn htn hdis2 hol
    constructor
    · intro hidx
      unfold deliverOne
      rw [htn]
      simp only [hdis2, Bool.false_eq_true, if_false]
      rw [if_pos ⟨hol, hidx⟩]
      rw [finishDelivery_trace]
      simp [emit]
    · intro hidx
      unfold deliverOne
      rw [htn]
      simp only [hdis2, Bool.false_eq_true, if_false]
      rw [if_neg (by intro hc; exact absurd hc.2 (by omega))]
      rw [finishDelivery_trace]

/-- C6 counterexample: node `u` has an unregistered type and one `main`
connection into `j` declared with target input index -1: the run
finishes, `u` is skipped, but `j` never receives a delivery, never
executes and its join buffer stays at zero received — the downstream join
does not complete. -/
theorem C6_counterexample :
    runC6.isFinished = true ∧
    nodeStatusOf runC6.state "u" = some NodeStatus.skipped ∧
    Event.nodeSkipped "u" ("未注册类型: " ++ "nope") ∈ runC6.state.trace ∧
    wfC6.get_downstream "u" "main" = [("j", -1)] ∧
    wfC6.get_upstream_count "j" "main" = 1 ∧
    (∀ a ch i, Event.delivered a "j" ch i ∉ runC6.state.trace) ∧
    Event.stepInvoked "j" ∉ runC6.state.trace ∧
    nodeStatusOf runC6.state "j" = some NodeStatus.idle ∧
    waitingReceived runC6.state "j" = some 0 := by
  refine ⟨by decide, by decide, by decide, by decide, by decide, ?_, by decide, by decide,
    by decide⟩
  intro a ch i hmem
  have : runC6.state.trace = [Event.workflowStarted, Event.nodeStarted "u",
      Event.nodeSkipped "u" ("未注册类型: " ++ "nope"), Event.workflowFinished "success"] := by
    decide
  rw [this] at hmem
  simp at hmem

-- ═══════ Claim C9 ═══════

/-- C9 (amended): the datum a node reads as its main input always holds
at least one item — a missing, `None` or zero-item slot is replaced by
the one-item sentinel — but a zero-item container can itself be passed
between nodes (see the counterexample). -/
theorem C9_main_input_nonempty (ed : ExecuteData) :
    1 ≤ (ExecuteData.get_main_input ed).items.length ∧
    NodeExecutionData.empty.items.length = 1 := by
  refine ⟨?_, rfl⟩
  unfold ExecuteData.get_main_input
  rcases h : alGet ed.input_data "main" with _ | l
  · simp [NodeExecutionData.empty]
  · rcases l with _ | ⟨o, tl⟩
    · simp [NodeExecutionData.empty]
    · rcases o with _ | d
      · simp [NodeExecutionData.empty]
      · by_cases he : d.items.isEmpty = true
        · simp [he, NodeExecutionData.empty]
        · simp only [he, Bool.false_eq_true, if_false]
          have : d.items ≠ [] := by
            intro hnil
            rw [hnil] at he
            exact he rfl
          rcases hd : d.items with _ | _
          · exact absurd hd this
          · simp [hd]

/-- C9 counterexample: with `pinData = {a: []}` and `a → b`, the pinned
node propagates a zero-item container, and the queue entry assembled for
`b` carries that zero-item container as its first `main` slot — a
`NodeExecutionData` with no items is passed between nodes. -/
theorem C9_counterexample :
    (match runC9 with | .outOfFuel _ => true | _ => false) = true ∧
    (match runC9.state.ctx.node_execution_stack with
      | ed :: _ => ed.node_id
      | [] => "") = "b" ∧
    headSlotItemCount runC9.state = some (some 0) ∧
    (alGet wfC9.pin_data "a").isSome = true := by
  decide

-- ═══════ Delivery-count and gating lemmas ═══════

theorem deliveredCountTo_append (t u : List Event) (n : String) :
    deliveredCountTo (t ++ u) n = deliveredCountTo t n + deliveredCountTo u n := by
  unfold deliveredCountTo
  rw [List.countP_append]

theorem deliveredCountTo_mono_append (t u : List Event) (n : String) :
    deliveredCountTo t n ≤ deliveredCountTo (t ++ u) n := by
  rw [deliveredCountTo_append]
  omega

theorem deliveredCountTo_take_le (t : List Event) (i : Nat) (n : String) :
    deliveredCountTo (t.take i) n ≤ deliveredCountTo t n := by
  conv_rhs => rw [← List.take_append_drop i t]
  exact deliveredCountTo_mono_append _ _ n

theorem deliveredCountTo_snoc_delivered (t : List Event) (a b ch : String) (i : Nat)
    (n : String) :
    deliveredCountTo (t ++ [Event.delivered a b ch i]) n =
      deliveredCountTo t n + (if b = n then 1 else 0) := by
  rw [deliveredCountTo_append]
  unfold deliveredCountTo
  rw [List.countP_cons, List.countP_nil]
  simp only [Nat.zero_add]
  by_cases hb : b = n
  · simp [hb]
  · simp [hb]

theorem take_append_of_le {α : Type} (l₁ l₂ : List α) (n : Nat) (h : n ≤ l₁.length) :
    (l₁ ++ l₂).take n = l₁.take n := by
  induction l₁ generalizing n with
  | nil =>
    have h0 : n = 0 := Nat.le_zero.mp (by simpa using h)
    simp [h0]
  | cons a l ih =>
    cases n with
    | zero => simp
    | succ m =>
      simp only [List.cons_append, List.take_succ_cons]
      rw [ih m (by simpa using h)]

theorem gatedTrace_append_one (needed : String → Nat) (t : List Event) (e : Event)
    (h : gatedTrace needed t)
    (he : ∀ n, e = Event.stepInvoked n → needed n ≤ deliveredCountTo t n) :
    gatedTrace needed (t ++ [e]) := by
  intro i n hi
  rcases Nat.lt_trichotomy i t.length with hlt | heq | hgt
  · rw [List.getElem?_append_left hlt] at hi
    rw [take_append_of_le _ _ _ (Nat.le_of_lt hlt)]
    exact h i n hi
  · subst heq
    rw [List.getElem?_concat_length] at hi
    injection hi with hi
    rw [take_append_of_le _ _ _ (Nat.le_refl _), List.take_length]
    exact he n hi
  · rw [List.getElem?_append_right (Nat.le_of_lt hgt)] at hi
    rw [List.getElem?_eq_none (by simp; omega)] at hi
    exact absurd hi (by simp)

theorem gatedTrace_starved (needed : String → Nat) (t : List Event)
    (h : gatedTrace needed t) (n : String)
    (hc : deliveredCountTo t n < needed n) : Event.stepInvoked n ∉ t := by
  intro hmem
  obtain ⟨i, hlt, hget⟩ := List.mem_iff_getElem.mp hmem
  have h1 := h i n (by rw [List.getElem?_eq_getElem hlt, hget])
  have h2 := deliveredCountTo_take_le t i n
  omega

-- ═══════ EngineInv preservation ═══════

theorem neededOf_of_connDst {s : EngineState} {w0 : Workflow}
    (hc : s.workflow.connections_by_dest = w0.connections_by_dest) (n : String) :
    neededOf s.workflow n = neededOf w0 n := by
  unfold neededOf Workflow.get_upstream_count
  rw [hc]

theorem EngineInv.congr_ctx {w0 : Workflow} {s s2 : EngineState} (h : EngineInv w0 s)
    (hw : s2.workflow = s.workflow) (htr : s2.trace = s.trace)
    (hst : s2.ctx.node_execution_stack = s.ctx.node_execution_stack)
    (hwa : s2.ctx.waiting_execution = s.ctx.waiting_execution)
    (hp : s2.ctx.pin_data = s.ctx.pin_data) : EngineInv w0 s2 where
  connSrc := by rw [hw]; exact h.connSrc
  connDst := by rw [hw]; exact h.connDst
  disabledEq := by rw [hw]; exact h.disabledEq
  pinEq := by rw [hp]; exact h.pinEq
  stackOk := by rw [hst, htr]; exact h.stackOk
  waitingOk := by rw [hwa, htr]; exact h.waitingOk
  gated := by rw [htr]; exact h.gated
  noPin := by rw [htr]; exact h.noPin

theorem EngineInv.emit_aux {w0 : Workflow} {s : EngineState} {e : Event} (h : EngineInv w0 s)
    (he : ∀ n, e = Event.stepInvoked n →
      neededOf w0 n ≤ deliveredCountTo s.trace n ∧ alGet w0.pin_data n = none) :
    EngineInv w0 (emit s e) where
  connSrc := h.connSrc
  connDst := h.connDst
  disabledEq := h.disabledEq
  pinEq := h.pinEq
  stackOk := by
    intro ed hed
    rcases h.stackOk ed hed with h1 | h1
    · exact Or.inl h1
    · exact Or.inr (Nat.le_trans h1 (deliveredCountTo_mono_append _ _ _))
  waitingOk := by
    intro p hp
    obtain ⟨h1, h2⟩ := h.waitingOk p hp
    exact ⟨h1, Nat.le_trans h2 (deliveredCountTo_mono_append _ _ _)⟩
  gated := gatedTrace_append_one _ _ _ h.gated (fun n hn => (he n hn).1)
  noPin := by
    intro n hmem
    rcases List.mem_append.mp hmem with h1 | h1
    · exact h.noPin n h1
    · rw [List.mem_singleton] at h1
      exact (he n h1.symm).2

theorem EngineInv.emit_other {w0 : Workflow} {s : EngineState} {e : Event} (h : EngineInv w0 s)
    (he : ∀ n, e ≠ Event.stepInvoked n) : EngineInv w0 (emit s e) :=
  h.emit_aux (fun n hn => absurd hn (he n))

theorem EngineInv.push {w0 : Workflow} {s : EngineState} {ed : ExecuteData}
    (h : EngineInv w0 s)
    (hed : disabledOf w0 ed.node_id = true ∨
      neededOf w0 ed.node_id ≤ deliveredCountTo s.trace ed.node_id) :
    EngineInv w0 (pushStack s ed) where
  connSrc := h.connSrc
  connDst := h.connDst
  disabledEq := h.disabledEq
  pinEq := h.pinEq
  stackOk := by
    intro ed2 hed2
    rcases List.mem_append.mp hed2 with h1 | h1
    · exact h.stackOk ed2 h1
    · rw [List.mem_singleton] at h1
      subst h1
      exact hed
  waitingOk := h.waitingOk
  gated := h.gated
  noPin := h.noPin

theorem EngineInv.pop {w0 : Workflow} {s : EngineState} {ed : ExecuteData}
    {rest : List ExecuteData} (h : EngineInv w0 s)
    (hstack : s.ctx.node_execution_stack = ed :: rest) :
    EngineInv w0 { s with ctx := { s.ctx with node_execution_stack := rest } } where
  connSrc := h.connSrc
  connDst := h.connDst
  disabledEq := h.disabledEq
  pinEq := h.pinEq
  stackOk := by
    intro ed2 hed2
    exact h.stackOk ed2 (by rw [hstack]; exact List.mem_cons_of_mem _ hed2)
  waitingOk := h.waitingOk
  gated := h.gated
  noPin := h.noPin

theorem disabledOf_updateNode (s : EngineState) (nid : String)
    (f : WorkflowNode → WorkflowNode) (n : String)
    (hf : ∀ nd, (f nd).disabled = nd.disabled) :
    disabledOf (updateNode s nid f).workflow n = disabledOf s.workflow n := by
  unfold disabledOf updateNode
  simp only [alGet_alMap]
  by_cases hn : n = nid
  · rw [if_pos hn]
    rcases halg : alGet s.workflow.nodes n with _ | nd <;> simp [hf]
  · rw [if_neg hn]

theorem EngineInv.update {w0 : Workflow} {s : EngineState} {nid : String}
    {f : WorkflowNode → WorkflowNode} (h : EngineInv w0 s)
    (hf : ∀ nd, (f nd).disabled = nd.disabled) : EngineInv w0 (updateNode s nid f) where
  connSrc := h.connSrc
  connDst := h.connDst
  disabledEq := fun n => by rw [disabledOf_updateNode s nid f n hf]; exact h.disabledEq n
  pinEq := h.pinEq
  stackOk := h.stackOk
  waitingOk := h.waitingOk
  gated := h.gated
  noPin := h.noPin

theorem saveRunData_shape (s : EngineState) (nid : String) :
    ∃ rd, (saveRunData s nid).1 = { s with ctx := { s.ctx with run_data := rd } } := by
  unfold saveRunData
  cases h1 : alGet s.workflow.nodes nid with
  | none => exact ⟨_, rfl⟩
  | some node =>
    dsimp only
    cases h2 : summarizeOutput node with
    | error e => exact ⟨_, rfl⟩
    | ok summ => exact ⟨_, rfl⟩

theorem saveRunData_projs (s : EngineState) (nid : String) :
    (saveRunData s nid).1.workflow = s.workflow ∧
    (saveRunData s nid).1.trace = s.trace ∧
    (saveRunData s nid).1.ctx.node_execution_stack = s.ctx.node_execution_stack ∧
    (saveRunData s nid).1.ctx.waiting_execution = s.ctx.waiting_execution ∧
    (saveRunData s nid).1.ctx.pin_data = s.ctx.pin_data := by
  obtain ⟨rd, hrd⟩ := saveRunData_shape s nid
  rw [hrd]
  exact ⟨rfl, rfl, rfl, rfl, rfl⟩

theorem EngineInv.saveRun {w0 : Workflow} {s : EngineState} {nid : String}
    (h : EngineInv w0 s) : EngineInv w0 (saveRunData s nid).1 := by
  obtain ⟨h1, h2, h3, h4, h5⟩ := saveRunData_projs s nid
  exact h.congr_ctx h1 h2 h3 h4 h5

theorem waitingBufferOf_spec {w0 : Workflow} {s : EngineState} (h : EngineInv w0 s)
    (tid : String) :
    (waitingBufferOf s tid).needed = neededOf w0 tid ∧
    (waitingBufferOf s tid).received ≤ deliveredCountTo s.trace tid := by
  unfold waitingBufferOf
  rcases hg : alGet s.ctx.waiting_execution tid with _ | wgt
  · exact ⟨neededOf_of_connDst h.connDst tid, Nat.zero_le _⟩
  · exact h.waitingOk (tid, wgt) (mem_of_alGet hg)

theorem EngineInv.finishDel {w0 : Workflow} {s : EngineState} {a b : String}
    {w1 : WaitingEntry} (h : EngineInv w0 s)
    (hw1 : w1.needed = neededOf w0 b ∧ w1.received ≤ deliveredCountTo s.trace b) :
    EngineInv w0 (finishDelivery s a b w1) := by
  unfold finishDelivery
  split
  · rename_i hfire
    have h2 := @EngineInv.push w0 s ⟨b, [("main", w1.main)], [("main", [some a])]⟩ h
      (Or.inr (by rw [← hw1.1]; exact Nat.le_trans hfire hw1.2))
    exact
      { connSrc := h2.connSrc
        connDst := h2.connDst
        disabledEq := h2.disabledEq
        pinEq := h2.pinEq
        stackOk := h2.stackOk
        waitingOk := fun p hp => h2.waitingOk p (mem_alErase hp)
        gated := h2.gated
        noPin := h2.noPin }
  · exact
      { connSrc := h.connSrc
        connDst := h.connDst
        disabledEq := h.disabledEq
        pinEq := h.pinEq
        stackOk := h.stackOk
        waitingOk := by
          intro p hp
          rcases mem_alSet hp with h1 | h1
          · exact h.waitingOk p h1
          · subst h1
            exact hw1
        gated := h.gated
        noPin := h.noPin }

theorem deliverOne_eq_none {node_id channel : String} {ol : List (Option NodeExecutionData)}
    {s : EngineState} {tgt : String × Int}
    (htn : alGet s.workflow.nodes tgt.1 = none) :
    deliverOne node_id channel ol s tgt = s := by
  unfold deliverOne
  rw [htn]

theorem deliverOne_eq_disabled {node_id channel : String} {ol : List (Option NodeExecutionData)}
    {s : EngineState} {tgt : String × Int} {tn : WorkflowNode}
    (htn : alGet s.workflow.nodes tgt.1 = some tn) (hd : tn.disabled = true) :
    deliverOne node_id channel ol s tgt =
      pushStack s ⟨tgt.1, [("main", ol)], [("main", [some node_id])]⟩ := by
  unfold deliverOne
  rw [htn]
  simp [hd]

theorem deliverOne_eq_join {node_id channel : String} {ol : List (Option NodeExecutionData)}
    {s : EngineState} {tgt : String × Int} {tn : WorkflowNode}
    (htn : alGet s.workflow.nodes tgt.1 = some tn) (hd : tn.disabled = false) :
    deliverOne node_id channel ol s tgt =
      (if ol.isEmpty = false ∧
          0 ≤ min tgt.2 (((waitingBufferOf s tgt.1).main.length : Int) - 1) then
        finishDelivery
          (emit s (.delivered node_id tgt.1 channel
            (min tgt.2 (((waitingBufferOf s tgt.1).main.length : Int) - 1)).toNat))
          node_id tgt.1
          ⟨(waitingBufferOf s tgt.1).main.set
              (min tgt.2 (((waitingBufferOf s tgt.1).main.length : Int) - 1)).toNat
              (ol.headD none),
            (waitingBufferOf s tgt.1).needed, (waitingBufferOf s tgt.1).received + 1⟩
      else finishDelivery s node_id tgt.1 (waitingBufferOf s tgt.1)) := by
  unfold deliverOne
  rw [htn]
  simp [hd]

theorem EngineInv.deliverOneInv {w0 : Workflow} {node_id channel : String}
    {ol : List (Option NodeExecutionData)} {s : EngineState} {tgt : String × Int}
    (h : EngineInv w0 s) : EngineInv w0 (deliverOne node_id channel ol s tgt) := by
  rcases htn : alGet s.workflow.nodes tgt.1 with _ | tn
  · rw [deliverOne_eq_none htn]
    exact h
  · by_cases hd : tn.disabled = true
    · rw [deliverOne_eq_disabled htn hd]
      refine h.push (Or.inl ?_)
      rw [← h.disabledEq tgt.1]
      unfold disabledOf
      rw [htn]
      exact hd
    · have hd2 : tn.disabled = false := by
        revert hd
        cases tn.disabled <;> simp
      rw [deliverOne_eq_join htn hd2]
      obtain ⟨hneed, hrec⟩ := waitingBufferOf_spec h tgt.1
      split
      · have hemit : EngineInv w0 (emit s (.delivered node_id tgt.1 channel
            (min tgt.2 (((waitingBufferOf s tgt.1).main.length : Int) - 1)).toNat)) :=
          h.emit_other (fun n hn => by simp at hn)
        refine hemit.finishDel ⟨hneed, ?_⟩
        have hcount : deliveredCountTo (s.trace ++ [Event.delivered node_id tgt.1 channel
            (min tgt.2 (((waitingBufferOf s tgt.1).main.length : Int) - 1)).toNat]) tgt.1 =
            deliveredCountTo s.trace tgt.1 + 1 := by
          rw [deliveredCountTo_snoc_delivered]
          simp
        show (waitingBufferOf s tgt.1).received + 1 ≤ _
        rw [show (emit s (Event.delivered node_id tgt.1 channel
            (min tgt.2 (((waitingBufferOf s tgt.1).main.length : Int) - 1)).toNat)).trace =
            s.trace ++ [Event.delivered node_id tgt.1 channel
            (min tgt.2 (((waitingBufferOf s tgt.1).main.length : Int) - 1)).toNat] from rfl]
        rw [hcount]
        omega
      · exact h.finishDel ⟨hneed, hrec⟩

theorem EngineInv.propagateChannelInv {w0 : Workflow} {s : EngineState}
    {node_id channel : String} {ol : List (Option NodeExecutionData)}
    (h : EngineInv w0 s) : EngineInv w0 (propagateChannel s node_id channel ol) := by
  unfold propagateChannel
  refine foldl_preserve (EngineInv w0) _ _ s h ?_
  intro x _ b hb
  exact hb.deliverOneInv

theorem EngineInv.propagateOutputInv {w0 : Workflow} {s : EngineState} {node_id : String}
    {output : List (String × List (Option NodeExecutionData))}
    (h : EngineInv w0 s) : EngineInv w0 (propagateOutput s node_id output) := by
  unfold propagateOutput
  refine foldl_preserve (EngineInv w0) _ _ s h ?_
  intro x _ b hb
  exact hb.propagateChannelInv

theorem EngineInv.disabledBranchInv {w0 : Workflow} {s : EngineState} {ed : ExecuteData}
    (h : EngineInv w0 s) : EngineInv w0 (disabledBranch s ed) := by
  unfold disabledBranch
  exact (h.emit_other (fun n => by simp)).propagateOutputInv

theorem EngineInv.pinBranchInv {w0 : Workflow} {s : EngineState} {nid : String}
    {pin : List JVal} (h : EngineInv w0 s) : EngineInv w0 (pinBranch s nid pin).1 := by
  unfold pinBranch
  dsimp only
  split
  · refine EngineInv.update h ?_
    intro nd
    rfl
  · split
    · refine EngineInv.saveRun (EngineInv.emit_other (EngineInv.update h ?_) ?_)
      · intro nd
        rfl
      · intro n
        simp
    · refine EngineInv.propagateOutputInv
        (EngineInv.saveRun (EngineInv.emit_other (EngineInv.update h ?_) ?_))
      · intro nd
        rfl
      · intro n
        simp

theorem EngineInv.unregisteredBranchInv {w0 : Workflow} {s : EngineState} {nid t : String}
    (h : EngineInv w0 s) : EngineInv w0 (unregisteredBranch s nid t) := by
  unfold unregisteredBranch
  refine EngineInv.propagateOutputInv (EngineInv.emit_other (EngineInv.update h ?_) ?_)
  · intro nd
    rfl
  · intro n
    simp

theorem EngineInv.errorBranchInv {w0 : Workflow} {s : EngineState} {nid e : String}
    (h : EngineInv w0 s) : EngineInv w0 (errorBranch s nid e) := by
  unfold errorBranch
  refine EngineInv.propagateOutputInv (EngineInv.emit_other (EngineInv.update h ?_) ?_)
  · intro nd
    rfl
  · intro n
    simp

theorem EngineInv.runTryBodyInv {w0 : Workflow} {gctx : JVal} {stepFn : StepFn}
    {node : WorkflowNode} {ed : ExecuteData} {s : EngineState} (h : EngineInv w0 s) :
    EngineInv w0 (runTryBody gctx stepFn node ed s).1 := by
  unfold runTryBody
  split
  · exact h
  · dsimp only
    split
    · refine EngineInv.update h ?_
      intro nd
      rfl
    · split
      · refine EngineInv.update h ?_
        intro nd
        rfl
      · split
        · refine EngineInv.saveRun (EngineInv.emit_other (EngineInv.update h ?_) ?_)
          · intro nd
            rfl
          · intro n
            simp
        · refine EngineInv.propagateOutputInv
            (EngineInv.saveRun (EngineInv.emit_other (EngineInv.update h ?_) ?_))
          · intro nd
            rfl
          · intro n
            simp

theorem EngineInv.execStepInv {w0 : Workflow} (reg : Registry) (gctx : JVal)
    {s : EngineState} (h : EngineInv w0 s) : EngineInv w0 (execStep reg gctx s).1 := by
  cases hstk : s.ctx.node_execution_stack with
  | nil =>
    unfold execStep
    rw [hstk]
    exact h
  | cons ed rest =>
    have hpop := h.pop hstk
    unfold execStep
    rw [hstk]
    dsimp only
    cases halg : alGet s.workflow.nodes ed.node_id with
    | none => exact hpop
    | some node =>
      dsimp only
      by_cases hdis : node.disabled = true
      · rw [if_pos hdis]
        exact hpop.disabledBranchInv
      · rw [if_neg hdis]
        have hdis2 : node.disabled = false := by
          revert hdis
          cases node.disabled <;> simp
        cases hpin : alGet s.ctx.pin_data ed.node_id with
        | some pin => exact hpop.pinBranchInv
        | none =>
          dsimp only
          have h3 : EngineInv w0 (emit (updateNode
              { s with ctx := { s.ctx with node_execution_stack := rest } }
              ed.node_id (fun n => { n with status := NodeStatus.running }))
              (.nodeStarted ed.node_id)) := by
            refine EngineInv.emit_other (EngineInv.update hpop ?_) ?_
            · intro nd
              rfl
            · intro n
              simp
          cases hreg : reg node.type with
          | none => exact h3.unregisteredBranchInv
          | some stepFn =>
            dsimp only
            have hnd : neededOf w0 ed.node_id ≤ deliveredCountTo s.trace ed.node_id := by
              rcases h.stackOk ed (by rw [hstk]; exact List.mem_cons_self ed rest) with hc | hc
              · exfalso
                have hx : disabledOf s.workflow ed.node_id = false := by
                  unfold disabledOf
                  rw [halg]
                  exact hdis2
                rw [h.disabledEq ed.node_id, hc] at hx
                simp at hx
              · exact hc
            have h4 : EngineInv w0 (emit (emit (updateNode
                { s with ctx := { s.ctx with node_execution_stack := rest } }
                ed.node_id (fun n => { n with status := NodeStatus.running }))
                (.nodeStarted ed.node_id)) (.stepInvoked ed.node_id)) := by
              refine h3.emit_aux ?_
              intro n hn
              injection hn with hn2
              subst hn2
              constructor
              · show neededOf w0 ed.node_id ≤
                  deliveredCountTo (s.trace ++ [Event.nodeStarted ed.node_id]) ed.node_id
                exact Nat.le_trans hnd (deliveredCountTo_mono_append _ _ _)
              · rw [← h.pinEq]
                exact hpin
            split
            · exact h4.runTryBodyInv
            · exact (h4.runTryBodyInv).errorBranchInv

theorem EngineInv.finishRunInv {w0 : Workflow} {s : EngineState} (h : EngineInv w0 s) :
    EngineInv w0 (finishRun s) := by
  unfold finishRun
  have h1 : EngineInv w0 { s with ctx := { s.ctx with status := ExecutionStatus.success } } :=
    h.congr_ctx rfl rfl rfl rfl rfl
  exact h1.emit_other (fun n => by simp)

theorem EngineInv.execLoopInv {w0 : Workflow} (reg : Registry) (gctx : JVal)
    (fuel : Nat) (s : EngineState) (h : EngineInv w0 s) :
    EngineInv w0 (execLoop reg gctx fuel s).state := by
  induction fuel generalizing s with
  | zero =>
    unfold execLoop
    split
    · exact h.finishRunInv
    · exact h
  | succ fuel ih =>
    unfold execLoop
    split
    · exact h.finishRunInv
    · split
      · rename_i s1 e heq
        have h2 := h.execStepInv reg gctx
        rw [heq] at h2
        exact h2
      · rename_i s1 heq
        have h2 := h.execStepInv reg gctx
        rw [heq] at h2
        exact ih s1 h2

theorem start_needed_zero (w : Workflow) (nid : String) (hmem : nid ∈ w.get_start_nodes) :
    neededOf w nid = 0 := by
  unfold Workflow.get_start_nodes at hmem
  have h2 := (List.mem_filter.mp hmem).2
  have h3 : alGet w.connections_by_dest nid = none := by
    revert h2
    cases alGet w.connections_by_dest nid <;> simp
  unfold neededOf Workflow.get_upstream_count
  rw [h3]
  rfl

theorem seedOne_workflow (st : EngineState) (nid : String) :
    (seedOne st nid).workflow = st.workflow := by
  unfold seedOne
  split
  · split <;> rfl
  · rfl

theorem EngineInv.seedOneInv {w0 : Workflow} {s : EngineState} {nid : String}
    (h : EngineInv w0 s) (hstart : neededOf w0 nid = 0) :
    EngineInv w0 (seedOne s nid) := by
  unfold seedOne
  split
  · split
    · exact h
    · refine h.push (Or.inr ?_)
      show neededOf w0 nid ≤ deliveredCountTo s.trace nid
      rw [hstart]
      exact Nat.zero_le _
  · exact h

theorem EngineInv.seedStackInv {w0 : Workflow} {s : EngineState} (h : EngineInv w0 s)
    (hw : s.workflow = w0) : EngineInv w0 (seedStack s) := by
  unfold seedStack
  refine (foldl_preserve (fun b => EngineInv w0 b ∧ b.workflow = w0) seedOne
    (s.workflow.get_start_nodes) s ⟨h, hw⟩ ?_).1
  intro nid hmem b hb
  refine ⟨hb.1.seedOneInv ?_, by rw [seedOne_workflow]; exact hb.2⟩
  apply start_needed_zero
  rw [← hw]
  exact hmem

theorem execute_inv (reg : Registry) (w : Workflow) (gctx : JVal) (fuel : Nat) :
    EngineInv w (execute reg w gctx fuel).state := by
  unfold execute
  dsimp only
  apply EngineInv.execLoopInv
  refine EngineInv.seedStackInv ?_ rfl
  refine EngineInv.emit_other ?_ (fun n => by simp)
  constructor
  · rfl
  · rfl
  · intro n
    rfl
  · rfl
  · intro ed hed
    simp at hed
  · intro p hp
    simp at hp
  · intro i n hi
    simp at hi
  · intro n hn
    simp at hn

theorem nodeStatusOf_congr {s s2 : EngineState} (h : s2.workflow = s.workflow) (n : String) :
    nodeStatusOf s2 n = nodeStatusOf s n := by
  unfold nodeStatusOf
  rw [h]

theorem saveRunData_snd_none {s : EngineState} {nid : String}
    (hok : ∀ node, alGet s.workflow.nodes nid = some node →
      ∃ o, summarizeOutput node = .ok o) :
    (saveRunData s nid).2 = none := by
  unfold saveRunData
  cases h1 : alGet s.workflow.nodes nid with
  | none => rfl
  | some node =>
    dsimp only
    obtain ⟨o, ho⟩ := hok node h1
    rw [ho]

-- ═══════ Claim C1 ═══════

/-- C1 (amended): along every run, a node's step is invoked only once the
number of deliveries accepted into its waiting buffer — counted on any
channel, not only `main` — has reached its incoming `main`-connection
count; a node whose accepted-delivery count never reaches that bound is
never invoked; and a run that drains its queue ends with context status
`SUCCESS`. -/
theorem C1_join_gating (reg : Registry) (w : Workflow) (gctx : JVal) (fuel : Nat) :
    gatedTrace (neededOf w) (execute reg w gctx fuel).state.trace ∧
    (∀ n, deliveredCountTo (execute reg w gctx fuel).state.trace n < neededOf w n →
      Event.stepInvoked n ∉ (execute reg w gctx fuel).state.trace) ∧
    (∀ s1, execute reg w gctx fuel = .finished s1 →
      s1.ctx.status = ExecutionStatus.success) := by
  have h := execute_inv reg w gctx fuel
  refine ⟨h.gated, fun n hc => gatedTrace_starved _ _ h.gated n hc, ?_⟩
  intro s1 hfin
  unfold execute at hfin
  exact execLoop_finished_success reg gctx fuel _ s1 hfin

/-- C1 counterexample to the original wording: in `runC1` the join `c`
has two incoming `main` connections, yet its step is invoked after a
single `main`-channel delivery — the second accepted delivery arrived
over the `error`-channel connection from `x`. -/
theorem C1_counterexample :
    neededOf wfC1 "c" = 2 ∧
    Event.stepInvoked "c" ∈ runC1.state.trace ∧
    mainDeliveredTo (beforeInvoke runC1.state.trace "c") "c" = 1 ∧
    runC1.state.ctx.status = ExecutionStatus.success := by
  refine ⟨by decide, by decide, by decide, by decide⟩

/-- C1 witness: in `runStarve` the join `j` (two incoming `main`
connections, one upstream raising) stays under its delivery bound, is
never invoked, and the run still ends `SUCCESS`. -/
theorem C1_witness :
    deliveredCountTo runStarve.state.trace "j" < neededOf wfStarve "j" ∧
    Event.stepInvoked "j" ∉ runStarve.state.trace ∧
    runStarve.state.ctx.status = ExecutionStatus.success := by
  have h := C1_join_gating testRegistry wfStarve (.obj []) 10
  exact ⟨by decide, h.2.1 "j" (by decide), h.2.2 runStarve.state rfl⟩

-- ═══════ Claim C4 ═══════

/-- C4 (amended): a pinned node's registered step is never invoked in any
run; and whenever the pinned records' summary computation succeeds, the
pinned branch raises nothing, marks the node `success` (never `skipped`),
emits `node:finished` with `pinned = true`, records run data, and
propagates exactly the pinned container on `main`. The summary
computation, however, runs outside the try block, so a pin whose records
make it raise aborts `execute` before `node:finished`, run recording and
propagation (see the counterexample). -/
theorem C4_pinned_short_circuit (reg : Registry) (w : Workflow) (gctx : JVal) (fuel : Nat) :
    (∀ n pin, alGet w.pin_data n = some pin →
      Event.stepInvoked n ∉ (execute reg w gctx fuel).state.trace) ∧
    (∀ s nid pin summ, NodeExecutionData.summary ⟨pin⟩ = .ok summ →
      (pinBranch s nid pin).2 = none ∧
      Event.nodeFinished nid true summ ∈ (pinBranch s nid pin).1.trace ∧
      ((alGet s.workflow.nodes nid).isSome = true →
        nodeStatusOf (pinBranch s nid pin).1 nid = some NodeStatus.success) ∧
      pinBranch s nid pin =
        (propagateOutput (saveRunData (emit (updateNode s nid
            (fun nd => { nd with status := NodeStatus.success, output_data := [("main", [some (⟨pin⟩ : NodeExecutionData)])] }))
            (Event.nodeFinished nid true summ)) nid).1 nid
          [("main", [some (⟨pin⟩ : NodeExecutionData)])], none)) := by
  constructor
  · intro n pin hpin hmem
    have h := execute_inv reg w gctx fuel
    have h2 := h.noPin n hmem
    rw [h2] at hpin
    exact Option.noConfusion hpin
  · intro s nid pin summ hs
    have hok : ∀ node, alGet (emit (updateNode s nid
        (fun nd => { nd with status := NodeStatus.success, output_data := [("main", [some (⟨pin⟩ : NodeExecutionData)])] }))
        (Event.nodeFinished nid true summ)).workflow.nodes nid = some node →
        ∃ o, summarizeOutput node = .ok o := by
      intro node2 h2
      have h3 : alGet (alMap s.workflow.nodes nid
          (fun nd => { nd with status := NodeStatus.success, output_data := [("main", [some (⟨pin⟩ : NodeExecutionData)])] })) nid
          = some node2 := h2
      rw [alGet_alMap, if_pos rfl] at h3
      cases halg : alGet s.workflow.nodes nid with
      | none =>
        rw [halg] at h3
        exact Option.noConfusion h3
      | some nd =>
        rw [halg] at h3
        have h4 : { nd with status := NodeStatus.success, output_data := [("main", [some (⟨pin⟩ : NodeExecutionData)])] } = node2 := by
          injection h3
        rw [← h4]
        by_cases hpe : pin.isEmpty = true
        · exact ⟨none, by simp [summarizeOutput, alGet, hpe]⟩
        · exact ⟨some summ, by simp [summarizeOutput, alGet, hpe, hs, Except.map]⟩
    have hsv : (saveRunData (emit (updateNode s nid
        (fun nd => { nd with status := NodeStatus.success, output_data := [("main", [some (⟨pin⟩ : NodeExecutionData)])] }))
        (Event.nodeFinished nid true summ)) nid).2 = none :=
      saveRunData_snd_none hok
    have heq : pinBranch s nid pin =
        (propagateOutput (saveRunData (emit (updateNode s nid
            (fun nd => { nd with status := NodeStatus.success, output_data := [("main", [some (⟨pin⟩ : NodeExecutionData)])] }))
            (Event.nodeFinished nid true summ)) nid).1 nid
          [("main", [some (⟨pin⟩ : NodeExecutionData)])], none) := by
      unfold pinBranch
      dsimp only
      rw [hs]
      dsimp only
      rw [hsv]
    refine ⟨by rw [heq], ?_, ?_, heq⟩
    · rw [heq]
      dsimp only
      apply mem_trace_propagateOutput
      rw [(saveRunData_projs _ _).2.1]
      show Event.nodeFinished nid true summ ∈ _ ++ [Event.nodeFinished nid true summ]
      simp
    · intro hsome
      rw [heq]
      dsimp only
      rw [nodeStatusOf_propagateOutput]
      rw [nodeStatusOf_congr (saveRunData_projs _ _).1]
      show nodeStatusOf (updateNode s nid _) nid = some NodeStatus.success
      rw [nodeStatusOf_updateNode, if_pos rfl]
      cases halg : alGet s.workflow.nodes nid with
      | none =>
        rw [halg] at hsome
        simp at hsome
      | some nd => rfl

/-- C4 counterexample to the original wording: in `runC4` the pinned node
`b` never invokes its (raising) step and is marked `success`, but the
summary of its poisoned pin records raises outside the try block:
`execute` aborts with the `TypeError`, and no `node:finished` is emitted,
no run data recorded, nothing propagated. -/
theorem C4_counterexample :
    alGet wfC4.pin_data "b" = some [.obj [("json", .obj [("skills", .num 5)])]] ∧
    runC4.raisedMsg = some "TypeError: object has no len" ∧
    runC4.state.trace = [Event.workflowStarted] ∧
    nodeStatusOf runC4.state "b" = some NodeStatus.success := by
  refine ⟨rfl, by decide, by decide, by decide⟩

/-- C4 witness: in `runPin` the pinned node `b` (whose registered step
always raises) is never step-invoked, and the pinned branch on the
concrete state `sPin` raises nothing, emits `node:finished` with
`pinned = true` and marks `b` `success`. -/
theorem C4_witness :
    Event.stepInvoked "b" ∉ runPin.state.trace ∧
    (pinBranch sPin "b" pinB).2 = none ∧
    Event.nodeFinished "b" true "1 items" ∈ (pinBranch sPin "b" pinB).1.trace ∧
    nodeStatusOf (pinBranch sPin "b" pinB).1 "b" = some NodeStatus.success := by
  have h := C4_pinned_short_circuit testRegistry wfPin (.obj []) 10
  have h2 := h.2 sPin "b" pinB "1 items" rfl
  exact ⟨h.1 "b" pinB rfl, h2.1, h2.2.1, h2.2.2.1 (by decide)⟩

/-- C6 witness: on the concrete state `sC6` the unregistered-type step
raises nothing and skips `u`, and the delivery toward the join declared
at index -1 leaves the trace unchanged. -/
theorem C6_witness :
    (execStep testRegistry (.obj []) sC6).2 = none ∧
    nodeStatusOf (execStep testRegistry (.obj []) sC6).1 "u" = some NodeStatus.skipped ∧
    (deliverOne "u" "main" [some NodeExecutionData.empty] sC6 ("j", -1)).trace =
      sC6.trace := by
  have h := C6_unregistered_type testRegistry (.obj []) sC6 (seedEntry "u") [] _
    rfl rfl rfl rfl rfl
  refine ⟨by rw [h.1], by decide, ?_⟩
  exact (h.2.2 "u" "main" [some NodeExecutionData.empty] sC6 ("j", -1) _ rfl rfl rfl).2
    (by decide)

end Pdf2Skill
